import Mathlib

/-!
Shallow embedding of the in-memory ledger of `src/operations.py`
(class `GTAOnlineOperations`) over the data model of `src/models.py`.

Python dicts are modelled as association lists with Python's dict
semantics: writing a fresh key appends at the end, writing an existing
key updates it in place, `pop` removes the key.  Python ints are
unbounded, so all numeric fields are `Int`; the float returned by
`calculate_inflation_rate` is modelled over `ℚ`.  Python exceptions
(`ValueError`, `TransactionError`) become an explicit error result; the
message strings are dropped.  Each operation returns the pair of its
result and the store after the call, because several operations mutate
part of the store before raising (e.g. `add_transaction` bumps
`_next_transaction_id` before the player lookup can fail).
-/

namespace GTA

/-- `models.Transaction` (with the `transaction_type` field used throughout
`operations.py` and populated by `main.py`). -/
structure Transaction where
  transaction_id : Int
  player_id : String
  item : String
  amount : Int
  date : String
  transaction_type : String
deriving DecidableEq

/-- `models.MarketPrice`. -/
structure MarketPrice where
  item_id : Int
  item_name : String
  price : Int
  date : String
deriving DecidableEq

/-- `models.Player` (with the `balance` field used throughout
`operations.py` and populated by `main.py`). -/
structure Player where
  player_id : String
  username : String
  balance : Int
  total_spent : Int
deriving DecidableEq

/-- The two exception classes raised by `operations.py`: Python's builtin
`ValueError` and the custom `TransactionError`. -/
inductive Err where
  | valueError
  | transactionError
deriving DecidableEq

deriving instance DecidableEq for Except

/-- Association-list lookup, Python `dict.get` / `in`. -/
def alookup {α β : Type} [DecidableEq α] (k : α) : List (α × β) → Option β
  | [] => none
  | e :: l => if e.1 = k then some e.2 else alookup k l

/-- Association-list write, Python `d[k] = v`: an existing key is updated in
place, a fresh key is appended at the end. -/
def aset {α β : Type} [DecidableEq α] (k : α) (v : β) : List (α × β) → List (α × β)
  | [] => [(k, v)]
  | e :: l => if e.1 = k then (k, v) :: l else e :: aset k v l

/-- Association-list removal, Python `d.pop(k)`. -/
def aerase {α β : Type} [DecidableEq α] (k : α) : List (α × β) → List (α × β)
  | [] => []
  | e :: l => if e.1 = k then l else e :: aerase k l

/-- The mutable state of `GTAOnlineOperations.__init__`: the three entity
dicts plus the auto-increment counter `_next_transaction_id`. -/
structure Store where
  transactions : List (Int × Transaction)
  market_prices : List ((Int × String) × MarketPrice)
  players : List (String × Player)
  next_transaction_id : Int
deriving DecidableEq

/-- Tail of `add_transaction` after the id handling: the final dict insert
together with the `total_spent` bump for purchases (lines 57-60). -/
def commitAdd (s : Store) (t : Transaction) (player : Player) :
    Except Err Transaction × Store :=
  let player2 := if t.transaction_type = "purchase"
    then { player with total_spent := player.total_spent + t.amount } else player
  (.ok t, { s with players := aset t.player_id player2 s.players,
                   transactions := aset t.transaction_id t s.transactions })

/-- `add_transaction` from the counter bump onwards (lines 38-60): player
lookup, optional balance validation with the purchase/sale balance effects,
then the commit. -/
def add_transaction_go (s : Store) (t : Transaction) (validate_balance : Bool) :
    Except Err Transaction × Store :=
  let s1 := { s with next_transaction_id := max s.next_transaction_id (t.transaction_id + 1) }
  match alookup t.player_id s1.players with
  | none => (.error .transactionError, s1)
  | some player =>
    if validate_balance = true ∧ t.transaction_type = "purchase" then
      if player.balance < t.amount then
        (.error .transactionError, s1)
      else
        commitAdd s1 t { player with balance := player.balance - t.amount }
    else if t.transaction_type = "sale" then
      commitAdd s1 t { player with balance := player.balance + t.amount }
    else
      commitAdd s1 t player

/-- `GTAOnlineOperations.add_transaction` (lines 19-60).  A non-positive id
is replaced by `_next_transaction_id`; a positive id already present raises
`ValueError`.  The returned transaction carries the id that was stored
(Python mutates the argument in place). -/
def add_transaction (s : Store) (t : Transaction) (validate_balance : Bool) :
    Except Err Transaction × Store :=
  if t.transaction_id ≤ 0 then
    add_transaction_go s { t with transaction_id := s.next_transaction_id } validate_balance
  else if (alookup t.transaction_id s.transactions).isSome then
    (.error .valueError, s)
  else
    add_transaction_go s t validate_balance

/-- The reversal step shared by `update_transaction` (lines 90-94) and
`delete_transaction` (lines 120-127): when the transaction's player exists,
undo a purchase's `total_spent`/`balance` delta or remove a sale's proceeds;
any other transaction type has no effect. -/
def reverseOld (old : Transaction) (ps : List (String × Player)) : List (String × Player) :=
  match alookup old.player_id ps with
  | none => ps
  | some old_player =>
    if old.transaction_type = "purchase" then
      aset old.player_id
        { old_player with
            total_spent := old_player.total_spent - old.amount,
            balance := old_player.balance + old.amount } ps
    else if old.transaction_type = "sale" then
      aset old.player_id
        { old_player with balance := old_player.balance - old.amount } ps
    else ps

/-- The rollback step of `update_transaction` (lines 98-103): restore the
old transaction's effect before raising. -/
def restoreOld (old : Transaction) (ps : List (String × Player)) : List (String × Player) :=
  match alookup old.player_id ps with
  | none => ps
  | some p =>
    if old.transaction_type = "purchase" then
      aset old.player_id
        { p with total_spent := p.total_spent + old.amount,
                 balance := p.balance - old.amount } ps
    else if old.transaction_type = "sale" then
      aset old.player_id { p with balance := p.balance + old.amount } ps
    else ps

/-- `GTAOnlineOperations.update_transaction` (lines 78-112): reverse the old
transaction's effect on its player, validate the new purchase against the
post-reversal balance, roll the reversal back and raise on failure,
otherwise apply the new effect and overwrite the stored transaction. -/
def update_transaction (s : Store) (transaction_id : Int) (new_transaction : Transaction) :
    Except Err Transaction × Store :=
  match alookup transaction_id s.transactions with
  | none => (.error .valueError, s)
  | some old_tr =>
    if new_transaction.transaction_id ≠ transaction_id then
      (.error .valueError, s)
    else
      let players1 := reverseOld old_tr s.players
      match alookup new_transaction.player_id players1 with
      | none =>
        (.ok new_transaction,
          { s with players := players1,
                   transactions := aset transaction_id new_transaction s.transactions })
      | some new_player =>
        if new_transaction.transaction_type = "purchase" then
          if new_player.balance < new_transaction.amount then
            (.error .transactionError, { s with players := restoreOld old_tr players1 })
          else
            (.ok new_transaction,
              { s with
                  players := aset new_transaction.player_id
                    { new_player with
                        total_spent := new_player.total_spent + new_transaction.amount,
                        balance := new_player.balance - new_transaction.amount } players1,
                  transactions := aset transaction_id new_transaction s.transactions })
        else if new_transaction.transaction_type = "sale" then
          (.ok new_transaction,
            { s with
                players := aset new_transaction.player_id
                  { new_player with balance := new_player.balance + new_transaction.amount }
                  players1,
                transactions := aset transaction_id new_transaction s.transactions })
        else
          (.ok new_transaction,
            { s with players := players1,
                     transactions := aset transaction_id new_transaction s.transactions })

/-- `GTAOnlineOperations.delete_transaction` (lines 114-127): pop the
transaction, then reverse its effect on its player when that player exists. -/
def delete_transaction (s : Store) (transaction_id : Int) : Except Err Unit × Store :=
  match alookup transaction_id s.transactions with
  | none => (.error .valueError, s)
  | some tr =>
    (.ok (), { s with transactions := aerase transaction_id s.transactions,
                      players := reverseOld tr s.players })

/-- `GTAOnlineOperations.add_market_price` (lines 130-135). -/
def add_market_price (s : Store) (market_price : MarketPrice) : Except Err Unit × Store :=
  let key := (market_price.item_id, market_price.date)
  if (alookup key s.market_prices).isSome then (.error .valueError, s)
  else (.ok (), { s with market_prices := aset key market_price s.market_prices })

/-- `GTAOnlineOperations.update_market_price` (lines 152-158): replaces the
value stored under `(item_id, date)` with `new_price` as given. -/
def update_market_price (s : Store) (item_id : Int) (date : String) (new_price : MarketPrice) :
    Except Err MarketPrice × Store :=
  if (alookup (item_id, date) s.market_prices).isNone then (.error .valueError, s)
  else (.ok new_price, { s with market_prices := aset (item_id, date) new_price s.market_prices })

/-- `GTAOnlineOperations.delete_market_price` (lines 160-165). -/
def delete_market_price (s : Store) (item_id : Int) (date : String) : Except Err Unit × Store :=
  if (alookup (item_id, date) s.market_prices).isNone then (.error .valueError, s)
  else (.ok (), { s with market_prices := aerase (item_id, date) s.market_prices })

/-- `GTAOnlineOperations.update_player` (lines 212-219). -/
def update_player (s : Store) (player_id : String) (new_player : Player) :
    Except Err Player × Store :=
  if (alookup player_id s.players).isNone then (.error .valueError, s)
  else if new_player.player_id ≠ player_id then (.error .valueError, s)
  else (.ok new_player, { s with players := aset player_id new_player s.players })

/-- `GTAOnlineOperations.delete_player` (lines 221-225): existence check and
`pop`, nothing else. -/
def delete_player (s : Store) (player_id : String) : Except Err Unit × Store :=
  if (alookup player_id s.players).isNone then (.error .valueError, s)
  else (.ok (), { s with players := aerase player_id s.players })

/-- `GTAOnlineOperations.get_all_players` (lines 197-199). -/
def get_all_players (s : Store) : List Player := s.players.map Prod.snd

/-- The comprehension of `calculate_inflation_rate` line 252: all price
entries whose key's item id matches. -/
def itemPrices (s : Store) (item_id : Int) : List MarketPrice :=
  (s.market_prices.filter (fun e => e.1.1 == item_id)).map Prod.snd

/-- Sort key of `prices.sort(key=lambda p: p.date)`. -/
def dateLe (p q : MarketPrice) : Prop := p.date ≤ q.date

instance : DecidableRel dateLe := fun p q => inferInstanceAs (Decidable (p.date ≤ q.date))

/-- `GTAOnlineOperations.calculate_inflation_rate` (lines 250-266).  Python's
stable `list.sort` is modelled by `List.insertionSort`, which is also stable;
string dates compare lexicographically in both languages. -/
def calculate_inflation_rate (s : Store) (item_id : Int) (start_date end_date : String) :
    Option ℚ :=
  let prices := itemPrices s item_id
  if prices = [] then none
  else
    let sorted := List.insertionSort dateLe prices
    let start_price := (sorted.find? (fun p => decide (start_date ≤ p.date))).map MarketPrice.price
    let end_price :=
      (sorted.reverse.find? (fun p => decide (p.date ≤ end_date))).map MarketPrice.price
    match start_price, end_price with
    | some sp, some ep => if sp = 0 then none else some (((ep : ℚ) - (sp : ℚ)) / (sp : ℚ) * 100)
    | _, _ => none

/-- A sequence element for the transaction operations of the claims: the
three mutating calls, each with the state it leaves behind (callers of the
API catch the exceptions and keep going). -/
inductive TxOp where
  | add (t : Transaction)
  | update (transaction_id : Int) (t : Transaction)
  | delete (transaction_id : Int)

/-- State after one transaction operation (with `validate_balance` left at
its default `True`, as every call site in `main.py` does). -/
def applyTxOp (s : Store) : TxOp → Store
  | .add t => (add_transaction s t true).2
  | .update i t => (update_transaction s i t).2
  | .delete i => (delete_transaction s i).2

/-- State after a sequence of transaction operations. -/
def runTxOps (s : Store) : List TxOp → Store
  | [] => s
  | op :: l => runTxOps (applyTxOp s op) l

/-- A sequence element for the market-price operations of claim C8. -/
inductive MpOp where
  | add (p : MarketPrice)
  | update (item_id : Int) (date : String) (p : MarketPrice)
  | delete (item_id : Int) (date : String)

/-- State after one market-price operation. -/
def applyMpOp (s : Store) : MpOp → Store
  | .add p => (add_market_price s p).2
  | .update i d p => (update_market_price s i d p).2
  | .delete i d => (delete_market_price s i d).2

/-- State after a sequence of market-price operations. -/
def runMpOps (s : Store) : List MpOp → Store
  | [] => s
  | op :: l => runMpOps (applyMpOp s op) l

/-! ### Association-list lemmas -/

variable {α β : Type} [DecidableEq α]

theorem alookup_aset_self (k : α) (v : β) (l : List (α × β)) :
    alookup k (aset k v l) = some v := by
  induction l with
  | nil => simp [alookup, aset]
  | cons e l ih =>
    by_cases h : e.1 = k
    · simp [aset, h, alookup]
    · simp [aset, h, alookup, ih]

theorem alookup_aset_ne {k k' : α} (v : β) (l : List (α × β)) (h : k' ≠ k) :
    alookup k' (aset k v l) = alookup k' l := by
  have hkk : ¬ k = k' := fun hh => h hh.symm
  induction l with
  | nil =>
    simp only [aset, alookup, if_neg hkk]
  | cons e l ih =>
    by_cases he : e.1 = k
    · have hek : ¬ e.1 = k' := fun hh => hkk (he.symm.trans hh)
      rw [aset, if_pos he, alookup, if_neg hkk]
      conv_rhs => rw [alookup, if_neg hek]
    · rw [aset, if_neg he]
      by_cases he' : e.1 = k'
      · rw [alookup, if_pos he']
        conv_rhs => rw [alookup, if_pos he']
      · rw [alookup, if_neg he']
        conv_rhs => rw [alookup, if_neg he']
        exact ih

theorem alookup_eq_none_iff (k : α) (l : List (α × β)) :
    alookup k l = none ↔ k ∉ l.map Prod.fst := by
  induction l with
  | nil => simp [alookup]
  | cons e l ih =>
    rw [alookup, List.map_cons]
    by_cases he : e.1 = k
    · rw [if_pos he]
      constructor
      · intro hh
        exact absurd hh (by simp)
      · intro hh
        exact absurd (List.mem_cons.mpr (Or.inl he.symm)) hh
    · rw [if_neg he, ih]
      constructor
      · intro hh h2
        rcases List.mem_cons.mp h2 with h2 | h2
        · exact he h2.symm
        · exact hh h2
      · intro hh h2
        exact hh (List.mem_cons.mpr (Or.inr h2))

theorem alookup_mem {k : α} {v : β} {l : List (α × β)} (h : alookup k l = some v) :
    (k, v) ∈ l := by
  induction l with
  | nil => exact absurd h (by simp [alookup])
  | cons e l ih =>
    rw [alookup] at h
    by_cases he : e.1 = k
    · rw [if_pos he] at h
      injection h with h
      cases e with
      | mk a b =>
        have ha : a = k := he
        have hb : b = v := h
        subst ha
        subst hb
        exact List.mem_cons_self _ _
    · rw [if_neg he] at h
      exact List.mem_cons_of_mem _ (ih h)

theorem aset_eq_append {k : α} {v : β} {l : List (α × β)} (h : alookup k l = none) :
    aset k v l = l ++ [(k, v)] := by
  induction l with
  | nil => simp [aset]
  | cons e l ih =>
    rw [alookup] at h
    by_cases he : e.1 = k
    · rw [if_pos he] at h
      exact absurd h (by simp)
    · rw [if_neg he] at h
      rw [aset, if_neg he, ih h, List.cons_append]

theorem keys_aset_of_mem {k : α} (v : β) {l : List (α × β)} (h : k ∈ l.map Prod.fst) :
    (aset k v l).map Prod.fst = l.map Prod.fst := by
  induction l with
  | nil => exact absurd h (by simp)
  | cons e l ih =>
    by_cases he : e.1 = k
    · rw [aset, if_pos he, List.map_cons, List.map_cons, he]
    · have h1 : k ∈ l.map Prod.fst := by
        rw [List.map_cons] at h
        rcases List.mem_cons.mp h with h1 | h1
        · exact absurd h1.symm he
        · exact h1
      rw [aset, if_neg he, List.map_cons, List.map_cons, ih h1]

theorem aset_self_of_lookup {k : α} {v : β} {l : List (α × β)} (h : alookup k l = some v) :
    aset k v l = l := by
  induction l with
  | nil => exact absurd h (by simp [alookup])
  | cons e l ih =>
    rw [alookup] at h
    by_cases he : e.1 = k
    · rw [if_pos he] at h
      injection h with h
      rw [aset, if_pos he]
      cases e with
      | mk a b =>
        have ha : a = k := he
        have hb : b = v := h
        subst ha
        subst hb
        rfl
    · rw [if_neg he] at h
      rw [aset, if_neg he, ih h]

theorem aset_aset_self (k : α) (v w : β) (l : List (α × β)) :
    aset k v (aset k w l) = aset k v l := by
  induction l with
  | nil => simp [aset]
  | cons e l ih =>
    by_cases he : e.1 = k
    · rw [aset, if_pos he, aset, aset, if_pos rfl, if_pos he]
    · rw [aset, if_neg he, aset, if_neg he]
      conv_rhs => rw [aset, if_neg he]
      rw [ih]

theorem aerase_eq_of_none {k : α} {l : List (α × β)} (h : alookup k l = none) :
    aerase k l = l := by
  induction l with
  | nil => rfl
  | cons e l ih =>
    rw [alookup] at h
    by_cases he : e.1 = k
    · rw [if_pos he] at h
      exact absurd h (by simp)
    · rw [if_neg he] at h
      rw [aerase, if_neg he, ih h]

theorem mem_keys_aerase {k k' : α} {l : List (α × β)}
    (h : k' ∈ (aerase k l).map Prod.fst) : k' ∈ l.map Prod.fst := by
  induction l with
  | nil => exact absurd h (by simp [aerase])
  | cons e l ih =>
    rw [List.map_cons]
    by_cases he : e.1 = k
    · rw [aerase, if_pos he] at h
      exact List.mem_cons_of_mem _ h
    · rw [aerase, if_neg he, List.map_cons] at h
      rcases List.mem_cons.mp h with h1 | h1
      · exact List.mem_cons.mpr (Or.inl h1)
      · exact List.mem_cons.mpr (Or.inr (ih h1))

theorem nodup_keys_aerase {k : α} {l : List (α × β)}
    (h : (l.map Prod.fst).Nodup) : ((aerase k l).map Prod.fst).Nodup := by
  induction l with
  | nil => exact h
  | cons e l ih =>
    rw [List.map_cons, List.nodup_cons] at h
    by_cases he : e.1 = k
    · rw [aerase, if_pos he]
      exact h.2
    · rw [aerase, if_neg he, List.map_cons, List.nodup_cons]
      exact ⟨fun hm => h.1 (mem_keys_aerase hm), ih h.2⟩

theorem alookup_aerase_self {k : α} {l : List (α × β)}
    (h : (l.map Prod.fst).Nodup) : alookup k (aerase k l) = none := by
  induction l with
  | nil => rfl
  | cons e l ih =>
    rw [List.map_cons, List.nodup_cons] at h
    by_cases he : e.1 = k
    · rw [aerase, if_pos he, alookup_eq_none_iff]
      rw [he] at h
      exact h.1
    · rw [aerase, if_neg he, alookup, if_neg he]
      exact ih h.2

theorem alookup_aerase_ne {k k' : α} {l : List (α × β)} (h : k' ≠ k) :
    alookup k' (aerase k l) = alookup k' l := by
  induction l with
  | nil => rfl
  | cons e l ih =>
    by_cases he : e.1 = k
    · have hek : ¬ e.1 = k' := fun hh => h (hh.symm.trans he)
      rw [aerase, if_pos he]
      conv_rhs => rw [alookup, if_neg hek]
    · rw [aerase, if_neg he]
      by_cases he' : e.1 = k'
      · rw [alookup, if_pos he']
        conv_rhs => rw [alookup, if_pos he']
      · rw [alookup, if_neg he']
        conv_rhs => rw [alookup, if_neg he']
        exact ih


/-! ### Per-player contribution sums over the transaction dict -/

/-- The contribution of one transaction to a player's `total_spent`
(purchases only). -/
def pContrib (pid : String) (t : Transaction) : Int :=
  if t.player_id = pid ∧ t.transaction_type = "purchase" then t.amount else 0

/-- The contribution of one transaction to a player's balance on the sale
side. -/
def sContrib (pid : String) (t : Transaction) : Int :=
  if t.player_id = pid ∧ t.transaction_type = "sale" then t.amount else 0

/-- Sum of `f` over the values of the transaction dict. -/
def tsum (f : Transaction → Int) : List (Int × Transaction) → Int
  | [] => 0
  | e :: l => f e.2 + tsum f l

theorem tsum_append (f : Transaction → Int) (l1 l2 : List (Int × Transaction)) :
    tsum f (l1 ++ l2) = tsum f l1 + tsum f l2 := by
  induction l1 with
  | nil => simp [tsum]
  | cons e l ih => simp [tsum, ih]; ring

theorem tsum_aset_of_none (f : Transaction → Int) {k : Int} (t : Transaction)
    {l : List (Int × Transaction)} (h : alookup k l = none) :
    tsum f (aset k t l) = tsum f l + f t := by
  rw [aset_eq_append h, tsum_append]
  simp [tsum]

theorem tsum_aset_of_some (f : Transaction → Int) {k : Int} (t : Transaction)
    {t0 : Transaction} {l : List (Int × Transaction)} (h : alookup k l = some t0) :
    tsum f (aset k t l) = tsum f l - f t0 + f t := by
  induction l with
  | nil => simp [alookup] at h
  | cons e l ih =>
    by_cases he : e.1 = k
    · simp [alookup, he] at h
      simp [aset, he, tsum, h]
      ring
    · simp [alookup, he] at h
      simp [aset, he, tsum, ih h]
      ring

theorem tsum_aerase_of_some (f : Transaction → Int) {k : Int}
    {t0 : Transaction} {l : List (Int × Transaction)} (h : alookup k l = some t0) :
    tsum f (aerase k l) = tsum f l - f t0 := by
  induction l with
  | nil => simp [alookup] at h
  | cons e l ih =>
    by_cases he : e.1 = k
    · simp [alookup, he] at h
      simp [aerase, he, tsum, h]
    · simp [alookup, he] at h
      simp [aerase, he, tsum, ih h]
      ring

/-! ### Transaction effects on a player record -/

/-- The net effect of a transaction on its player as `add_transaction`
applies it with balance validation on, and as `update_transaction` applies
the replacement transaction. -/
def applyEffect (t : Transaction) (p : Player) : Player :=
  if t.transaction_type = "purchase" then
    { p with total_spent := p.total_spent + t.amount, balance := p.balance - t.amount }
  else if t.transaction_type = "sale" then
    { p with balance := p.balance + t.amount }
  else p

/-- The reversal of a transaction's effect, as `reverseOld` performs it on
the stored player. -/
def reverseEffect (t : Transaction) (p : Player) : Player :=
  if t.transaction_type = "purchase" then
    { p with total_spent := p.total_spent - t.amount, balance := p.balance + t.amount }
  else if t.transaction_type = "sale" then
    { p with balance := p.balance - t.amount }
  else p

theorem applyEffect_reverseEffect (t : Transaction) (p : Player) :
    applyEffect t (reverseEffect t p) = p := by
  cases p with
  | mk a b c d =>
    unfold applyEffect reverseEffect
    by_cases h1 : t.transaction_type = "purchase"
    · simp [h1]
    · by_cases h2 : t.transaction_type = "sale"
      · simp [h1, h2]
      · simp [h1, h2]

theorem reverseOld_eq_aset {old : Transaction} {ps : List (String × Player)} {p : Player}
    (hp : alookup old.player_id ps = some p) :
    reverseOld old ps = aset old.player_id (reverseEffect old p) ps := by
  unfold reverseOld reverseEffect
  rw [hp]
  by_cases h1 : old.transaction_type = "purchase"
  · simp [h1]
  · by_cases h2 : old.transaction_type = "sale"
    · simp [h1, h2]
    · simp [h1, h2, aset_self_of_lookup hp]

theorem reverseOld_of_none {old : Transaction} {ps : List (String × Player)}
    (hp : alookup old.player_id ps = none) : reverseOld old ps = ps := by
  unfold reverseOld
  rw [hp]

theorem restoreOld_eq_aset {old : Transaction} {ps : List (String × Player)} {p : Player}
    (hp : alookup old.player_id ps = some p) :
    restoreOld old ps = aset old.player_id (applyEffect old p) ps := by
  unfold restoreOld applyEffect
  rw [hp]
  by_cases h1 : old.transaction_type = "purchase"
  · simp [h1]
  · by_cases h2 : old.transaction_type = "sale"
    · simp [h1, h2]
    · simp [h1, h2, aset_self_of_lookup hp]

theorem restoreOld_of_none {old : Transaction} {ps : List (String × Player)}
    (hp : alookup old.player_id ps = none) : restoreOld old ps = ps := by
  unfold restoreOld
  rw [hp]

/-- The rollback of `update_transaction` undoes its reversal exactly. -/
theorem restoreOld_reverseOld (old : Transaction) (ps : List (String × Player)) :
    restoreOld old (reverseOld old ps) = ps := by
  cases hp : alookup old.player_id ps with
  | none => rw [reverseOld_of_none hp, restoreOld_of_none hp]
  | some p =>
    rw [reverseOld_eq_aset hp,
        restoreOld_eq_aset (alookup_aset_self old.player_id (reverseEffect old p) ps),
        applyEffect_reverseEffect, aset_aset_self, aset_self_of_lookup hp]

/-! ### The ledger reconciliation invariant -/

theorem pContrib_ne {pid : String} {t : Transaction} (h : t.player_id ≠ pid) :
    pContrib pid t = 0 := by
  unfold pContrib
  rw [if_neg]
  intro hh
  exact h hh.1

theorem sContrib_ne {pid : String} {t : Transaction} (h : t.player_id ≠ pid) :
    sContrib pid t = 0 := by
  unfold sContrib
  rw [if_neg]
  intro hh
  exact h hh.1

/-- Consistency of the player dict with per-player purchase total `P` and
sale total `S` relative to initial balances `init`: each stored player's
`total_spent` is their purchase total and their `balance` is the initial
balance minus purchases plus sales (spec §3 reconciliation invariants). -/
def PInvP (init P S : String → Int) (ps : List (String × Player)) : Prop :=
  ∀ pid p, alookup pid ps = some p →
    p.total_spent = P pid ∧ p.balance = init pid - P pid + S pid

theorem PInvP_ext {init P S P' S' : String → Int} {ps : List (String × Player)}
    (h : PInvP init P S ps)
    (hP : ∀ pid p, alookup pid ps = some p → P' pid = P pid ∧ S' pid = S pid) :
    PInvP init P' S' ps := by
  intro pid p hp
  rcases h pid p hp with ⟨h1, h2⟩
  rcases hP pid p hp with ⟨e1, e2⟩
  rw [e1, e2]
  exact ⟨h1, h2⟩

theorem PInvP_aset_apply {init P S : String → Int} {ps : List (String × Player)}
    {t : Transaction} {p : Player}
    (h : PInvP init P S ps) (hp : alookup t.player_id ps = some p) :
    PInvP init (fun pid => P pid + pContrib pid t) (fun pid => S pid + sContrib pid t)
      (aset t.player_id (applyEffect t p) ps) := by
  intro pid q hq
  by_cases hpid : pid = t.player_id
  · subst hpid
    rw [alookup_aset_self] at hq
    injection hq with hq
    subst hq
    rcases h _ _ hp with ⟨h1, h2⟩
    unfold applyEffect pContrib sContrib
    by_cases h1t : t.transaction_type = "purchase"
    · simp [h1t, h1, h2]
      ring
    · by_cases h2t : t.transaction_type = "sale"
      · simp [h1t, h2t, h1, h2]
        ring
      · simp [h1t, h2t, h1, h2]
  · rw [alookup_aset_ne _ _ hpid] at hq
    rcases h _ _ hq with ⟨h1, h2⟩
    have hc1 : pContrib pid t = 0 := pContrib_ne (fun hh => hpid hh.symm)
    have hc2 : sContrib pid t = 0 := sContrib_ne (fun hh => hpid hh.symm)
    dsimp only
    rw [hc1, hc2]
    constructor
    · simpa using h1
    · simp only [add_zero]
      rw [h2]

theorem PInvP_aset_reverse {init P S : String → Int} {ps : List (String × Player)}
    {t : Transaction} {p : Player}
    (h : PInvP init P S ps) (hp : alookup t.player_id ps = some p) :
    PInvP init (fun pid => P pid - pContrib pid t) (fun pid => S pid - sContrib pid t)
      (aset t.player_id (reverseEffect t p) ps) := by
  intro pid q hq
  by_cases hpid : pid = t.player_id
  · subst hpid
    rw [alookup_aset_self] at hq
    injection hq with hq
    subst hq
    rcases h _ _ hp with ⟨h1, h2⟩
    unfold reverseEffect pContrib sContrib
    by_cases h1t : t.transaction_type = "purchase"
    · simp [h1t, h1, h2]
      ring
    · by_cases h2t : t.transaction_type = "sale"
      · simp [h1t, h2t, h1, h2]
        ring
      · simp [h1t, h2t, h1, h2]
  · rw [alookup_aset_ne _ _ hpid] at hq
    rcases h _ _ hq with ⟨h1, h2⟩
    have hc1 : pContrib pid t = 0 := pContrib_ne (fun hh => hpid hh.symm)
    have hc2 : sContrib pid t = 0 := sContrib_ne (fun hh => hpid hh.symm)
    dsimp only
    rw [hc1, hc2]
    constructor
    · simpa using h1
    · simp only [sub_zero]
      rw [h2]

theorem PInvP_shift_absent {init P S : String → Int} {ps : List (String × Player)}
    {t : Transaction} (h : PInvP init P S ps) (hp : alookup t.player_id ps = none)
    (c : Int → Int → Int) (hc : ∀ x : Int, c x 0 = x) :
    PInvP init (fun pid => c (P pid) (pContrib pid t)) (fun pid => c (S pid) (sContrib pid t))
      ps := by
  intro pid q hq
  have hpid : t.player_id ≠ pid := by
    intro hh
    rw [hh] at hp
    rw [hq] at hp
    cases hp
  rcases h _ _ hq with ⟨h1, h2⟩
  dsimp only
  rw [pContrib_ne hpid, sContrib_ne hpid, hc, hc]
  exact ⟨h1, h2⟩

/-- `reverseOld` moves the player dict from consistency with totals
including the old transaction to consistency with totals excluding it. -/
theorem PInvP_reverseOld {init P S : String → Int} {ps : List (String × Player)}
    (t : Transaction) (h : PInvP init P S ps) :
    PInvP init (fun pid => P pid - pContrib pid t) (fun pid => S pid - sContrib pid t)
      (reverseOld t ps) := by
  cases hp : alookup t.player_id ps with
  | none =>
    rw [reverseOld_of_none hp]
    exact PInvP_shift_absent h hp (fun x y => x - y) (fun x => sub_zero x)
  | some p =>
    rw [reverseOld_eq_aset hp]
    exact PInvP_aset_reverse h hp

theorem mem_keys_of_alookup {α β : Type} [DecidableEq α] {k : α} {v : β}
    {l : List (α × β)} (h : alookup k l = some v) : k ∈ l.map Prod.fst :=
  List.mem_map.mpr ⟨(k, v), alookup_mem h, rfl⟩

/-- Well-formedness of the transaction dict inherited from Python's dict
plus the auto-id discipline of `add_transaction`: keys are pairwise distinct
and every key is below `_next_transaction_id`. -/
def KeysInv (s : Store) : Prop :=
  (s.transactions.map Prod.fst).Nodup ∧
  ∀ k ∈ s.transactions.map Prod.fst, k < s.next_transaction_id

/-- The full inductive invariant for transaction-operation sequences:
dict well-formedness plus the reconciliation invariant relating every
stored player to the per-player sums over the stored transactions. -/
def StoreInv (init : String → Int) (s : Store) : Prop :=
  KeysInv s ∧
  PInvP init (fun pid => tsum (pContrib pid) s.transactions)
    (fun pid => tsum (sContrib pid) s.transactions) s.players

theorem alookup_next_none {s : Store}
    (hb : ∀ k ∈ s.transactions.map Prod.fst, k < s.next_transaction_id) :
    alookup s.next_transaction_id s.transactions = none :=
  (alookup_eq_none_iff _ _).mpr (fun hm => lt_irrefl _ (hb _ hm))

theorem keys_aset_fresh {α β : Type} [DecidableEq α] {k : α} {t : β} {l : List (α × β)}
    (h : alookup k l = none) :
    (aset k t l).map Prod.fst = l.map Prod.fst ++ [k] := by
  rw [aset_eq_append h, List.map_append]
  rfl

theorem nodup_keys_aset_fresh {α β : Type} [DecidableEq α] {k : α} {t : β} {l : List (α × β)}
    (h : alookup k l = none) (hnd : (l.map Prod.fst).Nodup) :
    ((aset k t l).map Prod.fst).Nodup := by
  rw [keys_aset_fresh h]
  refine List.nodup_append.mpr ⟨hnd, List.nodup_singleton _, ?_⟩
  intro a ha hb
  rw [List.mem_singleton] at hb
  subst hb
  exact (alookup_eq_none_iff _ _).mp h ha

theorem applyEffect_purchase {t : Transaction} (p : Player)
    (ht : t.transaction_type = "purchase") :
    applyEffect t p
      = { p with total_spent := p.total_spent + t.amount, balance := p.balance - t.amount } := by
  unfold applyEffect
  rw [if_pos ht]

theorem applyEffect_sale {t : Transaction} (p : Player)
    (ht : ¬ t.transaction_type = "purchase") (hs : t.transaction_type = "sale") :
    applyEffect t p = { p with balance := p.balance + t.amount } := by
  unfold applyEffect
  rw [if_neg ht, if_pos hs]

theorem applyEffect_other {t : Transaction} (p : Player)
    (ht : ¬ t.transaction_type = "purchase") (hs : ¬ t.transaction_type = "sale") :
    applyEffect t p = p := by
  unfold applyEffect
  rw [if_neg ht, if_neg hs]

theorem add_go_preserves {init : String → Int} {s : Store} {t : Transaction}
    (h : StoreInv init s) (hfresh : alookup t.transaction_id s.transactions = none) :
    StoreInv init (add_transaction_go s t true).2 := by
  obtain ⟨⟨hnd, hbound⟩, hpinv⟩ := h
  have hbound1 : ∀ k ∈ s.transactions.map Prod.fst,
      k < max s.next_transaction_id (t.transaction_id + 1) :=
    fun k hk => lt_of_lt_of_le (hbound k hk) (le_max_left _ _)
  have hkeys2 : ∀ k, k ∈ (aset t.transaction_id t s.transactions).map Prod.fst →
      k < max s.next_transaction_id (t.transaction_id + 1) := by
    intro k hk
    rw [keys_aset_fresh hfresh] at hk
    rcases List.mem_append.mp hk with hk | hk
    · exact hbound1 k hk
    · rw [List.mem_singleton] at hk
      subst hk
      exact lt_of_lt_of_le (lt_add_one _) (le_max_right _ _)
  have hnd2 : ((aset t.transaction_id t s.transactions).map Prod.fst).Nodup :=
    nodup_keys_aset_fresh hfresh hnd
  have hsum : ∀ g : String → Transaction → Int, ∀ pid : String,
      tsum (g pid) (aset t.transaction_id t s.transactions)
        = tsum (g pid) s.transactions + g pid t :=
    fun g pid => tsum_aset_of_none (g pid) t hfresh
  unfold add_transaction_go
  dsimp only
  cases hpl : alookup t.player_id s.players with
  | none => exact ⟨⟨hnd, hbound1⟩, hpinv⟩
  | some player =>
    dsimp only
    by_cases ht : t.transaction_type = "purchase"
    · rw [if_pos (⟨rfl, ht⟩ : true = true ∧ t.transaction_type = "purchase")]
      by_cases hbal : player.balance < t.amount
      · rw [if_pos hbal]
        exact ⟨⟨hnd, hbound1⟩, hpinv⟩
      · rw [if_neg hbal]
        unfold commitAdd
        dsimp only
        rw [if_pos ht]
        refine ⟨⟨hnd2, hkeys2⟩, ?_⟩
        have h1 := PInvP_aset_apply hpinv hpl
        rw [applyEffect_purchase player ht] at h1
        refine PInvP_ext h1 (fun pid p hp => ⟨?_, ?_⟩)
        · exact hsum pContrib pid
        · exact hsum sContrib pid
    · rw [if_neg (fun hh => ht hh.2)]
      by_cases hs : t.transaction_type = "sale"
      · rw [if_pos hs]
        unfold commitAdd
        dsimp only
        rw [if_neg ht]
        refine ⟨⟨hnd2, hkeys2⟩, ?_⟩
        have h1 := PInvP_aset_apply hpinv hpl
        rw [applyEffect_sale player ht hs] at h1
        refine PInvP_ext h1 (fun pid p hp => ⟨?_, ?_⟩)
        · exact hsum pContrib pid
        · exact hsum sContrib pid
      · rw [if_neg hs]
        unfold commitAdd
        dsimp only
        rw [if_neg ht]
        refine ⟨⟨hnd2, hkeys2⟩, ?_⟩
        have h1 := PInvP_aset_apply hpinv hpl
        rw [applyEffect_other player ht hs] at h1
        refine PInvP_ext h1 (fun pid p hp => ⟨?_, ?_⟩)
        · exact hsum pContrib pid
        · exact hsum sContrib pid

theorem add_preserves {init : String → Int} {s : Store} (t : Transaction)
    (h : StoreInv init s) : StoreInv init (add_transaction s t true).2 := by
  unfold add_transaction
  by_cases hid : t.transaction_id ≤ 0
  · rw [if_pos hid]
    exact add_go_preserves h (alookup_next_none h.1.2)
  · rw [if_neg hid]
    cases hdup : alookup t.transaction_id s.transactions with
    | some v =>
      rw [if_pos (by simp : ((some v : Option Transaction).isSome = true))]
      exact h
    | none =>
      rw [if_neg (by simp : ¬ (none : Option Transaction).isSome = true)]
      exact add_go_preserves h hdup

theorem pContrib_zero_of_type {pid : String} {t : Transaction}
    (h : ¬ t.transaction_type = "purchase") : pContrib pid t = 0 := by
  unfold pContrib
  rw [if_neg]
  intro hh
  exact h hh.2

theorem sContrib_zero_of_type {pid : String} {t : Transaction}
    (h : ¬ t.transaction_type = "sale") : sContrib pid t = 0 := by
  unfold sContrib
  rw [if_neg]
  intro hh
  exact h hh.2

theorem delete_preserves {init : String → Int} {s : Store} (i : Int)
    (h : StoreInv init s) : StoreInv init (delete_transaction s i).2 := by
  obtain ⟨⟨hnd, hbound⟩, hpinv⟩ := h
  unfold delete_transaction
  cases hold : alookup i s.transactions with
  | none => exact ⟨⟨hnd, hbound⟩, hpinv⟩
  | some tr =>
    refine ⟨⟨nodup_keys_aerase hnd, fun k hk => hbound k (mem_keys_aerase hk)⟩, ?_⟩
    have h1 := PInvP_reverseOld tr hpinv
    refine PInvP_ext h1 (fun pid p hp => ⟨?_, ?_⟩)
    · exact tsum_aerase_of_some (pContrib pid) hold
    · exact tsum_aerase_of_some (sContrib pid) hold

theorem update_preserves {init : String → Int} {s : Store} (i : Int) (nt : Transaction)
    (h : StoreInv init s) : StoreInv init (update_transaction s i nt).2 := by
  obtain ⟨⟨hnd, hbound⟩, hpinv⟩ := h
  unfold update_transaction
  cases hold : alookup i s.transactions with
  | none => exact ⟨⟨hnd, hbound⟩, hpinv⟩
  | some old =>
    dsimp only
    by_cases hne : nt.transaction_id ≠ i
    · rw [if_pos hne]
      exact ⟨⟨hnd, hbound⟩, hpinv⟩
    · rw [if_neg hne]
      have himem : i ∈ s.transactions.map Prod.fst := mem_keys_of_alookup hold
      have hkeq : (aset i nt s.transactions).map Prod.fst = s.transactions.map Prod.fst :=
        keys_aset_of_mem nt himem
      have hnd2 : ((aset i nt s.transactions).map Prod.fst).Nodup := by
        rw [hkeq]
        exact hnd
      have hb2 : ∀ k ∈ (aset i nt s.transactions).map Prod.fst, k < s.next_transaction_id := by
        rw [hkeq]
        exact hbound
      have h1 := PInvP_reverseOld old hpinv
      have hsumP : ∀ pid : String, tsum (pContrib pid) (aset i nt s.transactions)
          = tsum (pContrib pid) s.transactions - pContrib pid old + pContrib pid nt :=
        fun pid => tsum_aset_of_some (pContrib pid) nt hold
      have hsumS : ∀ pid : String, tsum (sContrib pid) (aset i nt s.transactions)
          = tsum (sContrib pid) s.transactions - sContrib pid old + sContrib pid nt :=
        fun pid => tsum_aset_of_some (sContrib pid) nt hold
      cases hnp : alookup nt.player_id (reverseOld old s.players) with
      | none =>
        dsimp only
        refine ⟨⟨hnd2, hb2⟩, ?_⟩
        refine PInvP_ext h1 (fun pid p hp => ?_)
        have hne2 : nt.player_id ≠ pid := by
          intro hh
          rw [hh] at hnp
          rw [hp] at hnp
          cases hnp
        constructor
        · rw [hsumP pid, pContrib_ne hne2, add_zero]
        · rw [hsumS pid, sContrib_ne hne2, add_zero]
      | some np =>
        dsimp only
        by_cases hpt : nt.transaction_type = "purchase"
        · by_cases hbal : np.balance < nt.amount
          · rw [if_pos hpt, if_pos hbal]
            rw [restoreOld_reverseOld]
            exact ⟨⟨hnd, hbound⟩, hpinv⟩
          · rw [if_pos hpt, if_neg hbal]
            refine ⟨⟨hnd2, hb2⟩, ?_⟩
            have h2 := PInvP_aset_apply h1 hnp
            rw [applyEffect_purchase np hpt] at h2
            refine PInvP_ext h2 (fun pid p hp => ⟨?_, ?_⟩)
            · rw [hsumP pid]
            · rw [hsumS pid]
        · rw [if_neg hpt]
          by_cases hst : nt.transaction_type = "sale"
          · rw [if_pos hst]
            refine ⟨⟨hnd2, hb2⟩, ?_⟩
            have h2 := PInvP_aset_apply h1 hnp
            rw [applyEffect_sale np hpt hst] at h2
            refine PInvP_ext h2 (fun pid p hp => ⟨?_, ?_⟩)
            · rw [hsumP pid]
            · rw [hsumS pid]
          · rw [if_neg hst]
            refine ⟨⟨hnd2, hb2⟩, ?_⟩
            refine PInvP_ext h1 (fun pid p hp => ⟨?_, ?_⟩)
            · rw [hsumP pid, pContrib_zero_of_type hpt, add_zero]
            · rw [hsumS pid, sContrib_zero_of_type hst, add_zero]

theorem applyTxOp_preserves {init : String → Int} {s : Store} (op : TxOp)
    (h : StoreInv init s) : StoreInv init (applyTxOp s op) := by
  cases op with
  | add t => exact add_preserves t h
  | update i t => exact update_preserves i t h
  | delete i => exact delete_preserves i h

theorem runTxOps_preserves {init : String → Int} (l : List TxOp) {s : Store}
    (h : StoreInv init s) : StoreInv init (runTxOps s l) := by
  induction l generalizing s with
  | nil => exact h
  | cons op l ih => exact ih (applyTxOp_preserves op h)


/-- Initial balance of a player in the starting store (0 for players that do
not exist there). -/
def initBal (s0 : Store) (pid : String) : Int :=
  ((alookup pid s0.players).map Player.balance).getD 0

/-- C1: for every sequence of `add_transaction`, `update_transaction` and
`delete_transaction` operations starting from a store with no transactions
in which every player's `total_spent` is 0 (their balance being the initial
balance), each stored player's `total_spent` equals the sum of `amount`
over that player's currently stored purchase transactions, and their
`balance` equals the initial balance minus that purchase sum plus the
corresponding sale sum. -/
theorem c1_reconciliation_invariant (ops : List TxOp) (s0 : Store)
    (h0 : s0.transactions = [])
    (hts : ∀ e ∈ s0.players, e.2.total_spent = 0) :
    ∀ pid p0 p, alookup pid s0.players = some p0 →
      alookup pid (runTxOps s0 ops).players = some p →
      p.total_spent = tsum (pContrib pid) (runTxOps s0 ops).transactions ∧
      p.balance = p0.balance - tsum (pContrib pid) (runTxOps s0 ops).transactions
        + tsum (sContrib pid) (runTxOps s0 ops).transactions := by
  intro pid p0 p hp0 hp
  have hinv0 : StoreInv (initBal s0) s0 := by
    refine ⟨⟨?_, ?_⟩, ?_⟩
    · rw [h0]
      exact List.nodup_nil
    · rw [h0]
      intro k hk
      cases hk
    · intro q r hq
      rw [h0]
      refine ⟨?_, ?_⟩
      · exact hts _ (alookup_mem hq)
      · unfold initBal
        rw [hq]
        simp [tsum]
  have hinv := runTxOps_preserves ops hinv0
  rcases hinv.2 pid p hp with ⟨h1, h2⟩
  refine ⟨h1, ?_⟩
  rw [h2]
  unfold initBal
  rw [hp0]
  simp


/-- Concrete starting store for the C1 witness. -/
def c1exS0 : Store :=
  ⟨[], [], [("p1", ⟨"p1", "alice", 100, 0⟩)], 1⟩

/-- Concrete operation sequence for the C1 witness: a purchase of 30 and a
sale of 20, both auto-id. -/
def c1exOps : List TxOp :=
  [TxOp.add ⟨0, "p1", "Shark Card", 30, "2024-01-01", "purchase"⟩,
   TxOp.add ⟨0, "p1", "Car", 20, "2024-01-02", "sale"⟩]

theorem c1_reconciliation_invariant_witness :
    c1exS0.transactions = [] ∧
    (⟨"p1", "alice", 100, 0⟩ : Player).total_spent = 0 ∧
    alookup "p1" c1exS0.players = some ⟨"p1", "alice", 100, 0⟩ ∧
    alookup "p1" (runTxOps c1exS0 c1exOps).players = some ⟨"p1", "alice", 90, 30⟩ ∧
    ((⟨"p1", "alice", 90, 30⟩ : Player).total_spent
        = tsum (pContrib "p1") (runTxOps c1exS0 c1exOps).transactions ∧
      (⟨"p1", "alice", 90, 30⟩ : Player).balance
        = (⟨"p1", "alice", 100, 0⟩ : Player).balance
            - tsum (pContrib "p1") (runTxOps c1exS0 c1exOps).transactions
            + tsum (sContrib "p1") (runTxOps c1exS0 c1exOps).transactions) :=
  ⟨rfl, rfl, by decide, by decide,
   c1_reconciliation_invariant c1exOps c1exS0 rfl (by decide) "p1"
     ⟨"p1", "alice", 100, 0⟩ ⟨"p1", "alice", 90, 30⟩ (by decide) (by decide)⟩

/-! ### Keys-only preservation, for the auto-id claim -/

theorem add_go_shape (s : Store) (t : Transaction) (vb : Bool) :
    (add_transaction_go s t vb).2.next_transaction_id
        = max s.next_transaction_id (t.transaction_id + 1) ∧
    ((add_transaction_go s t vb).2.transactions = s.transactions ∨
      (add_transaction_go s t vb).2.transactions = aset t.transaction_id t s.transactions) := by
  unfold add_transaction_go commitAdd
  dsimp only
  cases alookup t.player_id s.players with
  | none => exact ⟨rfl, Or.inl rfl⟩
  | some player =>
    dsimp only
    by_cases hc : vb = true ∧ t.transaction_type = "purchase"
    · rw [if_pos hc]
      by_cases hbal : player.balance < t.amount
      · rw [if_pos hbal]
        exact ⟨rfl, Or.inl rfl⟩
      · rw [if_neg hbal]
        exact ⟨rfl, Or.inr rfl⟩
    · rw [if_neg hc]
      by_cases hs : t.transaction_type = "sale"
      · rw [if_pos hs]
        exact ⟨rfl, Or.inr rfl⟩
      · rw [if_neg hs]
        exact ⟨rfl, Or.inr rfl⟩

theorem keys_go {s : Store} {t : Transaction}
    (hnd : (s.transactions.map Prod.fst).Nodup)
    (hb : ∀ k ∈ s.transactions.map Prod.fst, k < s.next_transaction_id)
    (hfresh : alookup t.transaction_id s.transactions = none) :
    KeysInv (add_transaction_go s t true).2 := by
  rcases add_go_shape s t true with ⟨hn, hts | hts⟩
  · refine ⟨?_, ?_⟩
    · rw [hts]
      exact hnd
    · rw [hn, hts]
      intro k hk
      exact lt_of_lt_of_le (hb k hk) (le_max_left _ _)
  · refine ⟨?_, ?_⟩
    · rw [hts]
      exact nodup_keys_aset_fresh hfresh hnd
    · rw [hn, hts]
      intro k hk
      rw [keys_aset_fresh hfresh] at hk
      rcases List.mem_append.mp hk with hk | hk
      · exact lt_of_lt_of_le (hb k hk) (le_max_left _ _)
      · rw [List.mem_singleton] at hk
        subst hk
        exact lt_of_lt_of_le (lt_add_one _) (le_max_right _ _)

theorem add_keys {s : Store} (t : Transaction) (h : KeysInv s) :
    KeysInv (add_transaction s t true).2 := by
  obtain ⟨hnd, hb⟩ := h
  unfold add_transaction
  by_cases hid : t.transaction_id ≤ 0
  · rw [if_pos hid]
    exact keys_go hnd hb (alookup_next_none hb)
  · rw [if_neg hid]
    cases hdup : alookup t.transaction_id s.transactions with
    | some v =>
      rw [if_pos (by simp : ((some v : Option Transaction).isSome = true))]
      exact ⟨hnd, hb⟩
    | none =>
      rw [if_neg (by simp : ¬ ((none : Option Transaction).isSome = true))]
      exact keys_go hnd hb hdup

theorem update_keys {s : Store} (i : Int) (nt : Transaction) (h : KeysInv s) :
    KeysInv (update_transaction s i nt).2 := by
  obtain ⟨hnd, hb⟩ := h
  unfold update_transaction
  cases hold : alookup i s.transactions with
  | none => exact ⟨hnd, hb⟩
  | some old =>
    dsimp only
    by_cases hne : nt.transaction_id ≠ i
    · rw [if_pos hne]
      exact ⟨hnd, hb⟩
    · rw [if_neg hne]
      have hkeq : (aset i nt s.transactions).map Prod.fst = s.transactions.map Prod.fst :=
        keys_aset_of_mem nt (mem_keys_of_alookup hold)
      have hnd2 : ((aset i nt s.transactions).map Prod.fst).Nodup := by
        rw [hkeq]
        exact hnd
      have hb2 : ∀ k ∈ (aset i nt s.transactions).map Prod.fst, k < s.next_transaction_id := by
        rw [hkeq]
        exact hb
      cases hnp : alookup nt.player_id (reverseOld old s.players) with
      | none => exact ⟨hnd2, hb2⟩
      | some np =>
        dsimp only
        by_cases hpt : nt.transaction_type = "purchase"
        · by_cases hbal : np.balance < nt.amount
          · rw [if_pos hpt, if_pos hbal]
            exact ⟨hnd, hb⟩
          · rw [if_pos hpt, if_neg hbal]
            exact ⟨hnd2, hb2⟩
        · rw [if_neg hpt]
          by_cases hst : nt.transaction_type = "sale"
          · rw [if_pos hst]
            exact ⟨hnd2, hb2⟩
          · rw [if_neg hst]
            exact ⟨hnd2, hb2⟩

theorem delete_keys {s : Store} (i : Int) (h : KeysInv s) :
    KeysInv (delete_transaction s i).2 := by
  obtain ⟨hnd, hb⟩ := h
  unfold delete_transaction
  cases hold : alookup i s.transactions with
  | none => exact ⟨hnd, hb⟩
  | some tr =>
    exact ⟨nodup_keys_aerase hnd, fun k hk => hb k (mem_keys_aerase hk)⟩

theorem applyTxOp_keys {s : Store} (op : TxOp) (h : KeysInv s) :
    KeysInv (applyTxOp s op) := by
  cases op with
  | add t => exact add_keys t h
  | update i t => exact update_keys i t h
  | delete i => exact delete_keys i h

theorem runTxOps_keys (l : List TxOp) {s : Store} (h : KeysInv s) :
    KeysInv (runTxOps s l) := by
  induction l generalizing s with
  | nil => exact h
  | cons op l ih => exact ih (applyTxOp_keys op h)

theorem update_next (s : Store) (i : Int) (nt : Transaction) :
    (update_transaction s i nt).2.next_transaction_id = s.next_transaction_id := by
  unfold update_transaction
  cases alookup i s.transactions with
  | none => rfl
  | some old =>
    dsimp only
    by_cases hne : nt.transaction_id ≠ i
    · rw [if_pos hne]
    · rw [if_neg hne]
      cases alookup nt.player_id (reverseOld old s.players) with
      | none => rfl
      | some np =>
        dsimp only
        by_cases hpt : nt.transaction_type = "purchase"
        · by_cases hbal : np.balance < nt.amount
          · rw [if_pos hpt, if_pos hbal]
          · rw [if_pos hpt, if_neg hbal]
        · rw [if_neg hpt]
          by_cases hst : nt.transaction_type = "sale"
          · rw [if_pos hst]
          · rw [if_neg hst]

theorem delete_next (s : Store) (i : Int) :
    (delete_transaction s i).2.next_transaction_id = s.next_transaction_id := by
  unfold delete_transaction
  cases alookup i s.transactions with
  | none => rfl
  | some tr => rfl

theorem applyTxOp_next_le (s : Store) (op : TxOp) :
    s.next_transaction_id ≤ (applyTxOp s op).next_transaction_id := by
  cases op with
  | add t =>
    unfold applyTxOp add_transaction
    dsimp only
    by_cases hid : t.transaction_id ≤ 0
    · rw [if_pos hid, (add_go_shape s _ true).1]
      exact le_max_left _ _
    · rw [if_neg hid]
      cases hdup : alookup t.transaction_id s.transactions with
      | some v =>
        rw [if_pos (by simp : ((some v : Option Transaction).isSome = true))]
      | none =>
        rw [if_neg (by simp : ¬ ((none : Option Transaction).isSome = true)),
          (add_go_shape s t true).1]
        exact le_max_left _ _
  | update i t =>
    unfold applyTxOp
    dsimp only
    rw [update_next]
  | delete i =>
    unfold applyTxOp
    dsimp only
    rw [delete_next]

theorem runTxOps_next_le (l : List TxOp) (s : Store) :
    s.next_transaction_id ≤ (runTxOps s l).next_transaction_id := by
  induction l generalizing s with
  | nil => exact le_refl _
  | cons op l ih => exact le_trans (applyTxOp_next_le s op) (ih (applyTxOp s op))

theorem add_go_ok {s : Store} {t : Transaction} {vb : Bool} {t2 : Transaction}
    (h : (add_transaction_go s t vb).1 = .ok t2) : t2 = t := by
  unfold add_transaction_go commitAdd at h
  dsimp only at h
  cases hpl : alookup t.player_id s.players with
  | none =>
    rw [hpl] at h
    simp at h
  | some player =>
    rw [hpl] at h
    dsimp only at h
    by_cases hc : vb = true ∧ t.transaction_type = "purchase"
    · rw [if_pos hc] at h
      by_cases hbal : player.balance < t.amount
      · rw [if_pos hbal] at h
        simp at h
      · rw [if_neg hbal] at h
        injection h with h
        exact h.symm
    · rw [if_neg hc] at h
      by_cases hs : t.transaction_type = "sale"
      · rw [if_pos hs] at h
        injection h with h
        exact h.symm
      · rw [if_neg hs] at h
        injection h with h
        exact h.symm


/-- C10: after any transaction-operation sequence from a store with no
transactions and counter at least 1 (as `__init__` sets up), every stored
transaction key is strictly below `_next_transaction_id`, the counter stays
at least 1, and a successful `add_transaction` of a transaction submitted
with non-positive id stores it under the auto-assigned id
`_next_transaction_id`, which is fresh and strictly positive. -/
theorem c10_auto_id_fresh (ops : List TxOp) (s0 : Store)
    (h0 : s0.transactions = []) (h1 : 1 ≤ s0.next_transaction_id) :
    (∀ k ∈ (runTxOps s0 ops).transactions.map Prod.fst,
        k < (runTxOps s0 ops).next_transaction_id) ∧
    1 ≤ (runTxOps s0 ops).next_transaction_id ∧
    ∀ t : Transaction, t.transaction_id ≤ 0 → ∀ t2 : Transaction,
      (add_transaction (runTxOps s0 ops) t true).1 = .ok t2 →
      t2.transaction_id = (runTxOps s0 ops).next_transaction_id ∧
      alookup t2.transaction_id (runTxOps s0 ops).transactions = none ∧
      0 < t2.transaction_id := by
  have hkeys : KeysInv (runTxOps s0 ops) := by
    refine runTxOps_keys ops ⟨?_, ?_⟩
    · rw [h0]
      exact List.nodup_nil
    · rw [h0]
      intro k hk
      cases hk
  have hnext : 1 ≤ (runTxOps s0 ops).next_transaction_id :=
    le_trans h1 (runTxOps_next_le ops s0)
  refine ⟨hkeys.2, hnext, ?_⟩
  intro t ht t2 hok
  unfold add_transaction at hok
  rw [if_pos ht] at hok
  have h2 := add_go_ok hok
  refine ⟨?_, ?_, ?_⟩
  · rw [h2]
  · rw [h2]
    exact alookup_next_none hkeys.2
  · rw [h2]
    exact lt_of_lt_of_le zero_lt_one hnext

/-- Concrete store, operations and transactions for the C10 witness. -/
def c10exS0 : Store :=
  ⟨[], [], [("p1", ⟨"p1", "alice", 100, 0⟩)], 1⟩

def c10exOps : List TxOp :=
  [TxOp.add ⟨0, "p1", "Shark Card", 30, "2024-01-01", "purchase"⟩]

def c10exT : Transaction := ⟨0, "p1", "Gift", 10, "2024-01-03", "sale"⟩

def c10exT2 : Transaction := ⟨2, "p1", "Gift", 10, "2024-01-03", "sale"⟩

theorem c10_auto_id_fresh_witness :
    c10exS0.transactions = [] ∧
    (1 : Int) ≤ c10exS0.next_transaction_id ∧
    (1 : Int) ∈ (runTxOps c10exS0 c10exOps).transactions.map Prod.fst ∧
    (1 : Int) < (runTxOps c10exS0 c10exOps).next_transaction_id ∧
    (1 : Int) ≤ (runTxOps c10exS0 c10exOps).next_transaction_id ∧
    c10exT.transaction_id ≤ 0 ∧
    (add_transaction (runTxOps c10exS0 c10exOps) c10exT true).1 = .ok c10exT2 ∧
    c10exT2.transaction_id = (runTxOps c10exS0 c10exOps).next_transaction_id ∧
    alookup c10exT2.transaction_id (runTxOps c10exS0 c10exOps).transactions = none ∧
    0 < c10exT2.transaction_id := by
  have h := c10_auto_id_fresh c10exOps c10exS0 rfl (by decide)
  refine ⟨rfl, by decide, by decide, h.1 1 (by decide), h.2.1, by decide, by decide, ?_⟩
  exact h.2.2 c10exT (by decide) c10exT2 (by decide)

/-- Insufficient-balance leg of `add_transaction` after the id handling:
the purchase is rejected and neither the player dict nor the transaction
dict changes. -/
theorem add_go_insufficient {s : Store} {t : Transaction} {p : Player}
    (htype : t.transaction_type = "purchase")
    (hp : alookup t.player_id s.players = some p) (hlt : p.balance < t.amount) :
    (add_transaction_go s t true).1 = .error Err.transactionError ∧
    (add_transaction_go s t true).2.players = s.players ∧
    (add_transaction_go s t true).2.transactions = s.transactions := by
  unfold add_transaction_go
  dsimp only
  rw [hp]
  dsimp only
  rw [if_pos (⟨rfl, htype⟩ : true = true ∧ t.transaction_type = "purchase"), if_pos hlt]
  exact ⟨rfl, rfl, rfl⟩

/-- C3: a purchase whose amount exceeds the referenced player's balance is
rejected by `add_transaction` with the player dict and transaction dict
unchanged (whatever the id situation); a purchase within balance whose id is
positive and fresh is inserted, decrementing `balance` and incrementing
`total_spent` by the amount. -/
theorem c3_purchase_balance_check (s : Store) (t : Transaction) (p : Player)
    (htype : t.transaction_type = "purchase")
    (hp : alookup t.player_id s.players = some p) :
    (p.balance < t.amount →
      ((add_transaction s t true).1 = .error Err.transactionError ∨
        (add_transaction s t true).1 = .error Err.valueError) ∧
      (add_transaction s t true).2.players = s.players ∧
      (add_transaction s t true).2.transactions = s.transactions) ∧
    (t.amount ≤ p.balance → 0 < t.transaction_id →
      alookup t.transaction_id s.transactions = none →
      (add_transaction s t true).1 = .ok t ∧
      alookup t.transaction_id (add_transaction s t true).2.transactions = some t ∧
      alookup t.player_id (add_transaction s t true).2.players
        = some { p with balance := p.balance - t.amount,
                        total_spent := p.total_spent + t.amount }) := by
  constructor
  · intro hlt
    unfold add_transaction
    by_cases hid : t.transaction_id ≤ 0
    · rw [if_pos hid]
      have h := @add_go_insufficient s
        { t with transaction_id := s.next_transaction_id } p htype hp hlt
      exact ⟨Or.inl h.1, h.2.1, h.2.2⟩
    · rw [if_neg hid]
      cases hdup : alookup t.transaction_id s.transactions with
      | some v =>
        rw [if_pos (by simp : ((some v : Option Transaction).isSome = true))]
        exact ⟨Or.inr rfl, rfl, rfl⟩
      | none =>
        rw [if_neg (by simp : ¬ ((none : Option Transaction).isSome = true))]
        have h := add_go_insufficient htype hp hlt
        exact ⟨Or.inl h.1, h.2.1, h.2.2⟩
  · intro hle hpos hfresh
    unfold add_transaction
    rw [if_neg (by omega : ¬ t.transaction_id ≤ 0),
      if_neg (by rw [hfresh]; simp : ¬ ((alookup t.transaction_id s.transactions).isSome = true))]
    unfold add_transaction_go commitAdd
    dsimp only
    rw [hp]
    dsimp only
    rw [if_pos (⟨rfl, htype⟩ : true = true ∧ t.transaction_type = "purchase"),
      if_neg (by omega : ¬ p.balance < t.amount)]
    dsimp only
    rw [if_pos htype]
    refine ⟨rfl, ?_, ?_⟩
    · exact alookup_aset_self _ _ _
    · exact alookup_aset_self _ _ _

/-- Concrete store and transactions for the C3 witness. -/
def c3exS : Store := ⟨[], [], [("p1", ⟨"p1", "bob", 50, 0⟩)], 1⟩

def c3exTfail : Transaction := ⟨1, "p1", "Yacht", 60, "2024-01-01", "purchase"⟩

def c3exTok : Transaction := ⟨1, "p1", "Yacht", 50, "2024-01-01", "purchase"⟩

theorem c3_purchase_balance_check_witness :
    (⟨"p1", "bob", 50, 0⟩ : Player).balance < c3exTfail.amount ∧
    ((add_transaction c3exS c3exTfail true).1 = .error Err.transactionError ∨
      (add_transaction c3exS c3exTfail true).1 = .error Err.valueError) ∧
    (add_transaction c3exS c3exTfail true).2.players = c3exS.players ∧
    (add_transaction c3exS c3exTfail true).2.transactions = c3exS.transactions ∧
    c3exTok.amount ≤ (⟨"p1", "bob", 50, 0⟩ : Player).balance ∧
    (add_transaction c3exS c3exTok true).1 = .ok c3exTok ∧
    alookup c3exTok.transaction_id (add_transaction c3exS c3exTok true).2.transactions
      = some c3exTok ∧
    alookup c3exTok.player_id (add_transaction c3exS c3exTok true).2.players
      = some ⟨"p1", "bob", 0, 50⟩ := by
  have hA := (c3_purchase_balance_check c3exS c3exTfail ⟨"p1", "bob", 50, 0⟩ rfl
    (by decide)).1 (by decide)
  have hB := (c3_purchase_balance_check c3exS c3exTok ⟨"p1", "bob", 50, 0⟩ rfl
    (by decide)).2 (by decide) (by decide) (by decide)
  exact ⟨by decide, hA.1, hA.2.1, hA.2.2, by decide, hB.1, hB.2.1, hB.2.2⟩


/-- C2: `update_transaction` of a stored transaction `old` by `nt` with the
same id reverses `old`'s effect on its player and applies `nt`'s effect to
its player as `add_transaction` would (the post-reversal view `np1` of the
new player accounts for the case where both transactions belong to the same
player); and when `nt` is a purchase whose amount exceeds the new player's
post-reversal balance, the call fails and the store is returned exactly as
it was — the reversal is rolled back atomically. -/
theorem c2_update_atomicity (s : Store) (tid : Int) (nt old : Transaction)
    (oldP np np1 : Player)
    (hold : alookup tid s.transactions = some old)
    (hid : nt.transaction_id = tid)
    (hop : alookup old.player_id s.players = some oldP)
    (hnp : alookup nt.player_id s.players = some np)
    (hnp1 : np1 = if nt.player_id = old.player_id then reverseEffect old oldP else np) :
    ((nt.transaction_type = "purchase" → nt.amount ≤ np1.balance) →
      (update_transaction s tid nt).1 = .ok nt ∧
      (update_transaction s tid nt).2.transactions = aset tid nt s.transactions ∧
      (update_transaction s tid nt).2.players
        = aset nt.player_id (applyEffect nt np1)
            (aset old.player_id (reverseEffect old oldP) s.players) ∧
      (update_transaction s tid nt).2.market_prices = s.market_prices ∧
      (update_transaction s tid nt).2.next_transaction_id = s.next_transaction_id) ∧
    (nt.transaction_type = "purchase" → np1.balance < nt.amount →
      (update_transaction s tid nt).1 = .error Err.transactionError ∧
      (update_transaction s tid nt).2 = s) := by
  have halookup : alookup nt.player_id (reverseOld old s.players) = some np1 := by
    rw [reverseOld_eq_aset hop]
    by_cases heq : nt.player_id = old.player_id
    · rw [heq, alookup_aset_self, hnp1, if_pos heq]
    · rw [alookup_aset_ne _ _ heq, hnp, hnp1, if_neg heq]
  have hlookup2 : alookup nt.player_id
      (aset old.player_id (reverseEffect old oldP) s.players) = some np1 := by
    rw [← reverseOld_eq_aset hop]
    exact halookup
  constructor
  · intro hok
    unfold update_transaction
    rw [hold]
    dsimp only
    rw [if_neg (fun hh => hh hid)]
    rw [halookup]
    dsimp only
    by_cases hpt : nt.transaction_type = "purchase"
    · rw [if_pos hpt, if_neg (not_lt.mpr (hok hpt))]
      refine ⟨rfl, rfl, ?_, rfl, rfl⟩
      rw [reverseOld_eq_aset hop, applyEffect_purchase np1 hpt]
    · rw [if_neg hpt]
      by_cases hst : nt.transaction_type = "sale"
      · rw [if_pos hst]
        refine ⟨rfl, rfl, ?_, rfl, rfl⟩
        rw [reverseOld_eq_aset hop, applyEffect_sale np1 hpt hst]
      · rw [if_neg hst]
        refine ⟨rfl, rfl, ?_, rfl, rfl⟩
        rw [reverseOld_eq_aset hop, applyEffect_other np1 hpt hst,
          aset_self_of_lookup hlookup2]
  · intro hpt hlt
    unfold update_transaction
    rw [hold]
    dsimp only
    rw [if_neg (fun hh => hh hid)]
    rw [halookup]
    dsimp only
    rw [if_pos hpt, if_pos hlt, restoreOld_reverseOld]
    exact ⟨rfl, rfl⟩

/-- Concrete store and transactions for the C2 witness: player A holds a
stored purchase of 50, the update moves the transaction to player B. -/
def c2exS : Store :=
  ⟨[(1, ⟨1, "A", "Yacht", 50, "2024-01-01", "purchase"⟩)], [],
   [("A", ⟨"A", "alice", 100, 50⟩), ("B", ⟨"B", "bob", 10, 0⟩)], 2⟩

def c2exOld : Transaction := ⟨1, "A", "Yacht", 50, "2024-01-01", "purchase"⟩

def c2exOk : Transaction := ⟨1, "B", "Car", 5, "2024-01-02", "purchase"⟩

def c2exBad : Transaction := ⟨1, "B", "Car", 20, "2024-01-02", "purchase"⟩

theorem c2_update_atomicity_witness :
    alookup (1 : Int) c2exS.transactions = some c2exOld ∧
    alookup "A" c2exS.players = some ⟨"A", "alice", 100, 50⟩ ∧
    alookup "B" c2exS.players = some ⟨"B", "bob", 10, 0⟩ ∧
    c2exOk.amount ≤ (10 : Int) ∧
    ((update_transaction c2exS 1 c2exOk).1 = .ok c2exOk ∧
      (update_transaction c2exS 1 c2exOk).2.transactions = aset 1 c2exOk c2exS.transactions ∧
      (update_transaction c2exS 1 c2exOk).2.players
        = aset "B" (applyEffect c2exOk ⟨"B", "bob", 10, 0⟩)
            (aset "A" (reverseEffect c2exOld ⟨"A", "alice", 100, 50⟩) c2exS.players) ∧
      (update_transaction c2exS 1 c2exOk).2.market_prices = c2exS.market_prices ∧
      (update_transaction c2exS 1 c2exOk).2.next_transaction_id
        = c2exS.next_transaction_id) ∧
    ((10 : Int) < c2exBad.amount ∧
      (update_transaction c2exS 1 c2exBad).1 = .error Err.transactionError ∧
      (update_transaction c2exS 1 c2exBad).2 = c2exS) := by
  have hOk := (c2_update_atomicity c2exS 1 c2exOk c2exOld ⟨"A", "alice", 100, 50⟩
    ⟨"B", "bob", 10, 0⟩ ⟨"B", "bob", 10, 0⟩ (by decide) rfl (by decide) (by decide)
    (by decide)).1 (fun _ => by decide)
  have hBad := (c2_update_atomicity c2exS 1 c2exBad c2exOld ⟨"A", "alice", 100, 50⟩
    ⟨"B", "bob", 10, 0⟩ ⟨"B", "bob", 10, 0⟩ (by decide) rfl (by decide) (by decide)
    (by decide)).2 rfl (by decide)
  exact ⟨by decide, by decide, by decide, by decide, hOk, by decide, hBad.1, hBad.2⟩


theorem reverseEffect_purchase {t : Transaction} (p : Player)
    (ht : t.transaction_type = "purchase") :
    reverseEffect t p
      = { p with total_spent := p.total_spent - t.amount, balance := p.balance + t.amount } := by
  unfold reverseEffect
  rw [if_pos ht]

theorem reverseEffect_sale {t : Transaction} (p : Player)
    (ht : ¬ t.transaction_type = "purchase") (hs : t.transaction_type = "sale") :
    reverseEffect t p = { p with balance := p.balance - t.amount } := by
  unfold reverseEffect
  rw [if_neg ht, if_pos hs]

theorem reverseEffect_other {t : Transaction} (p : Player)
    (ht : ¬ t.transaction_type = "purchase") (hs : ¬ t.transaction_type = "sale") :
    reverseEffect t p = p := by
  unfold reverseEffect
  rw [if_neg ht, if_neg hs]

/-- Clean starting store for the C4 counterexample. -/
def c4exS0 : Store := ⟨[], [], [("p1", ⟨"p1", "carol", 0, 0⟩)], 1⟩

/-- Reaching a player with negative balance holding a purchase: add a sale
of 50, add a purchase of 30, then delete the sale (its reversal drives the
balance to -30). -/
def c4exOps : List TxOp :=
  [TxOp.add ⟨0, "p1", "Car", 50, "2024-01-01", "sale"⟩,
   TxOp.add ⟨0, "p1", "Yacht", 30, "2024-01-02", "purchase"⟩,
   TxOp.delete 1]

/-- The reachable store in which the round trip of C4 fails. -/
def c4exS : Store := runTxOps c4exS0 c4exOps

def c4exT : Transaction := ⟨2, "p1", "Yacht", 30, "2024-01-02", "purchase"⟩

/-- C4 counterexample: in the reachable store `c4exS` the player has balance
-30 and total_spent 30 and holds the stored purchase `c4exT`; deleting it
and re-adding the identical transaction leaves the player at balance 0,
total_spent 0 (the re-add is rejected for insufficient balance), so the
round trip does not restore the pre-delete state. -/
theorem c4_roundtrip_counterexample :
    alookup (2 : Int) c4exS.transactions = some c4exT ∧
    alookup "p1" c4exS.players = some ⟨"p1", "carol", -30, 30⟩ ∧
    (add_transaction (delete_transaction c4exS 2).2 c4exT true).1
      = .error Err.transactionError ∧
    alookup "p1" (add_transaction (delete_transaction c4exS 2).2 c4exT true).2.players
      = some ⟨"p1", "carol", 0, 0⟩ ∧
    (⟨"p1", "carol", 0, 0⟩ : Player) ≠ ⟨"p1", "carol", -30, 30⟩ := by
  refine ⟨by decide, by decide, by decide, by decide, by decide⟩

/-- C4 as amended: deleting a stored transaction (stored under its own
positive id) and re-adding an identical one restores the player's record
exactly, provided that for a purchase the player's balance before the
delete is non-negative (so that the re-added purchase passes the balance
check; sales and other types need no proviso). -/
theorem c4_delete_readd_roundtrip (s : Store) (k : Int) (t : Transaction) (p : Player)
    (hk : alookup k s.transactions = some t)
    (hkid : t.transaction_id = k)
    (hpos : 0 < k)
    (hnd : (s.transactions.map Prod.fst).Nodup)
    (hp : alookup t.player_id s.players = some p)
    (hbal : t.transaction_type = "purchase" → 0 ≤ p.balance) :
    alookup t.player_id
      (add_transaction (delete_transaction s k).2 t true).2.players = some p := by
  obtain ⟨pa, pb, pc, pd⟩ := p
  unfold delete_transaction
  rw [hk]
  dsimp only
  unfold add_transaction
  rw [if_neg (by omega : ¬ t.transaction_id ≤ 0)]
  have hfresh : alookup t.transaction_id (aerase k s.transactions) = none := by
    rw [hkid]
    exact alookup_aerase_self hnd
  rw [if_neg (by rw [hfresh]; simp :
    ¬ ((alookup t.transaction_id (aerase k s.transactions)).isSome = true))]
  unfold add_transaction_go commitAdd
  dsimp only
  rw [reverseOld_eq_aset hp, alookup_aset_self]
  dsimp only
  by_cases hpt : t.transaction_type = "purchase"
  · rw [if_pos (⟨rfl, hpt⟩ : true = true ∧ t.transaction_type = "purchase")]
    rw [reverseEffect_purchase _ hpt]
    dsimp only
    have h0 : (0 : Int) ≤ pc := hbal hpt
    rw [if_neg (by omega : ¬ (pc + t.amount < t.amount))]
    rw [if_pos hpt]
    rw [aset_aset_self, alookup_aset_self]
    have : pc + t.amount - t.amount = pc := by ring
    rw [this]
    have : pd - t.amount + t.amount = pd := by ring
    rw [this]
  · rw [if_neg (fun hh => hpt hh.2)]
    by_cases hst : t.transaction_type = "sale"
    · rw [if_pos hst]
      rw [reverseEffect_sale _ hpt hst]
      dsimp only
      rw [if_neg hpt]
      rw [aset_aset_self, alookup_aset_self]
      have : pc - t.amount + t.amount = pc := by ring
      rw [this]
    · rw [if_neg hst]
      rw [reverseEffect_other _ hpt hst]
      rw [if_neg hpt]
      rw [aset_aset_self, alookup_aset_self]

theorem c4_delete_readd_roundtrip_witness :
    alookup (1 : Int) c2exS.transactions = some c2exOld ∧
    c2exOld.transaction_id = 1 ∧
    alookup "A" c2exS.players = some ⟨"A", "alice", 100, 50⟩ ∧
    (0 : Int) ≤ (100 : Int) ∧
    alookup "A"
      (add_transaction (delete_transaction c2exS 1).2 c2exOld true).2.players
      = some ⟨"A", "alice", 100, 50⟩ :=
  ⟨by decide, rfl, by decide, by decide,
   c4_delete_readd_roundtrip c2exS 1 c2exOld ⟨"A", "alice", 100, 50⟩ (by decide) rfl
     (by decide) (by decide) (by decide) (fun _ => by decide)⟩


/-- Store for the C5 counterexample: player p1 exists and one stored
transaction references p1. -/
def c5exS : Store :=
  ⟨[(1, ⟨1, "p1", "Yacht", 10, "2024-01-01", "purchase"⟩)], [],
   [("p1", ⟨"p1", "erin", 100, 10⟩)], 2⟩

/-- C5 counterexample: although a stored transaction references player p1,
`delete_player` succeeds and removes the player (no `ReferentialConflict`);
the transaction is left behind orphaned. -/
theorem c5_referential_conflict_counterexample :
    alookup (1 : Int) c5exS.transactions
      = some ⟨1, "p1", "Yacht", 10, "2024-01-01", "purchase"⟩ ∧
    (⟨1, "p1", "Yacht", 10, "2024-01-01", "purchase"⟩ : Transaction).player_id = "p1" ∧
    alookup "p1" c5exS.players = some ⟨"p1", "erin", 100, 10⟩ ∧
    (delete_player c5exS "p1").1 = .ok () ∧
    get_all_players (delete_player c5exS "p1").2 = [] ∧
    (delete_player c5exS "p1").2.transactions = c5exS.transactions := by
  refine ⟨by decide, rfl, by decide, by decide, by decide, by decide⟩

/-- C5 as amended: `delete_player` checks only that the player id exists —
absent ids fail with `ValueError` (`NotFound`), present ids are removed
unconditionally, even when stored transactions still reference the player
(which are left in place, orphaned). -/
theorem c5_delete_player_behavior (s : Store) (pid : String) :
    (alookup pid s.players = none → delete_player s pid = (.error Err.valueError, s)) ∧
    (∀ p, alookup pid s.players = some p →
      (delete_player s pid).1 = .ok () ∧
      (delete_player s pid).2.players = aerase pid s.players ∧
      ((s.players.map Prod.fst).Nodup →
        alookup pid (delete_player s pid).2.players = none) ∧
      (delete_player s pid).2.transactions = s.transactions) := by
  constructor
  · intro hnone
    unfold delete_player
    rw [if_pos (by rw [hnone]; rfl : (alookup pid s.players).isNone = true)]
  · intro p hp
    unfold delete_player
    rw [if_neg (by rw [hp]; simp : ¬ ((alookup pid s.players).isNone = true))]
    exact ⟨rfl, rfl, fun hnd => alookup_aerase_self hnd, rfl⟩

theorem c5_delete_player_behavior_witness :
    alookup "q" c5exS.players = none ∧
    delete_player c5exS "q" = (.error Err.valueError, c5exS) ∧
    alookup "p1" c5exS.players = some ⟨"p1", "erin", 100, 10⟩ ∧
    (delete_player c5exS "p1").1 = .ok () ∧
    (delete_player c5exS "p1").2.players = aerase "p1" c5exS.players ∧
    alookup "p1" (delete_player c5exS "p1").2.players = none ∧
    (delete_player c5exS "p1").2.transactions = c5exS.transactions := by
  have h := c5_delete_player_behavior c5exS "p1"
  have h2 := h.2 ⟨"p1", "erin", 100, 10⟩ (by decide)
  exact ⟨by decide, (c5_delete_player_behavior c5exS "q").1 (by decide), by decide,
    h2.1, h2.2.1, h2.2.2.1 (by decide), h2.2.2.2⟩

/-- Store for the C6 counterexample: a valid player, an empty market-price
dict. -/
def c6exS : Store := ⟨[], [], [("p1", ⟨"p1", "frank", 100, 0⟩)], 1⟩

def c6exT : Transaction := ⟨1, "p1", "Item Nobody Sells", 10, "2024-01-01", "purchase"⟩

/-- C6 counterexample: the market-price dict is empty, so no MarketPrice
entry has `item_name` equal to the transaction's item, yet
`add_transaction` succeeds and inserts the transaction — there is no
`UnknownItem` check. -/
theorem c6_unknown_item_counterexample :
    c6exS.market_prices = [] ∧
    (add_transaction c6exS c6exT true).1 = .ok c6exT ∧
    alookup (1 : Int) (add_transaction c6exS c6exT true).2.transactions = some c6exT := by
  refine ⟨rfl, by decide, by decide⟩

/-- C6 as amended: `add_transaction` performs the DuplicateId, UnknownPlayer
and balance checks but never consults the market-price dict: its result and
its effect on transactions, players and the id counter are identical for
any contents of `market_prices`, which it leaves unchanged. -/
theorem c6_add_ignores_market_prices (s : Store)
    (m : List ((Int × String) × MarketPrice)) (t : Transaction) (vb : Bool) :
    (add_transaction { s with market_prices := m } t vb).1 = (add_transaction s t vb).1 ∧
    (add_transaction { s with market_prices := m } t vb).2.transactions
      = (add_transaction s t vb).2.transactions ∧
    (add_transaction { s with market_prices := m } t vb).2.players
      = (add_transaction s t vb).2.players ∧
    (add_transaction { s with market_prices := m } t vb).2.next_transaction_id
      = (add_transaction s t vb).2.next_transaction_id ∧
    (add_transaction { s with market_prices := m } t vb).2.market_prices = m := by
  unfold add_transaction add_transaction_go commitAdd
  dsimp only
  by_cases hid : t.transaction_id ≤ 0
  · rw [if_pos hid, if_pos hid]
    cases hpl : alookup t.player_id s.players with
    | none => refine ⟨?_, ?_, ?_, ?_, ?_⟩ <;> rfl
    | some player =>
      dsimp only
      by_cases hc : vb = true ∧ t.transaction_type = "purchase"
      · rw [if_pos hc, if_pos hc]
        by_cases hbal : player.balance < t.amount
        · rw [if_pos hbal, if_pos hbal]
          refine ⟨?_, ?_, ?_, ?_, ?_⟩ <;> rfl
        · rw [if_neg hbal, if_neg hbal]
          refine ⟨?_, ?_, ?_, ?_, ?_⟩ <;> rfl
      · rw [if_neg hc, if_neg hc]
        by_cases hs : t.transaction_type = "sale"
        · rw [if_pos hs, if_pos hs]
          refine ⟨?_, ?_, ?_, ?_, ?_⟩ <;> rfl
        · rw [if_neg hs, if_neg hs]
          refine ⟨?_, ?_, ?_, ?_, ?_⟩ <;> rfl
  · rw [if_neg hid, if_neg hid]
    cases hdup : alookup t.transaction_id s.transactions with
    | some v =>
      rw [if_pos (by simp : ((some v : Option Transaction).isSome = true)), if_pos (by simp : ((some v : Option Transaction).isSome = true))]
      refine ⟨?_, ?_, ?_, ?_, ?_⟩ <;> rfl
    | none =>
      rw [if_neg (by simp : ¬ ((none : Option Transaction).isSome = true)), if_neg (by simp : ¬ ((none : Option Transaction).isSome = true))]
      cases hpl : alookup t.player_id s.players with
      | none => refine ⟨?_, ?_, ?_, ?_, ?_⟩ <;> rfl
      | some player =>
        dsimp only
        by_cases hc : vb = true ∧ t.transaction_type = "purchase"
        · rw [if_pos hc, if_pos hc]
          by_cases hbal : player.balance < t.amount
          · rw [if_pos hbal, if_pos hbal]
            refine ⟨?_, ?_, ?_, ?_, ?_⟩ <;> rfl
          · rw [if_neg hbal, if_neg hbal]
            refine ⟨?_, ?_, ?_, ?_, ?_⟩ <;> rfl
        · rw [if_neg hc, if_neg hc]
          by_cases hs : t.transaction_type = "sale"
          · rw [if_pos hs, if_pos hs]
            refine ⟨?_, ?_, ?_, ?_, ?_⟩ <;> rfl
          · rw [if_neg hs, if_neg hs]
            refine ⟨?_, ?_, ?_, ?_, ?_⟩ <;> rfl

/-- Reaching a state where a stored purchase exceeds its player's
`total_spent`: add a purchase of 50, then replace the player record through
`update_player` with a fresh one whose `total_spent` is 0. -/
def c7exS1 : Store :=
  (add_transaction ⟨[], [], [("p1", ⟨"p1", "dave", 100, 0⟩)], 1⟩
    ⟨0, "p1", "Yacht", 50, "2024-01-01", "purchase"⟩ true).2

def c7exS2 : Store := (update_player c7exS1 "p1" ⟨"p1", "dave", 100, 0⟩).2

/-- C7 counterexample: from the reachable store `c7exS2`, deleting the
stored purchase succeeds and silently stores `total_spent = -50`; no error
is raised and nothing is clamped. -/
theorem c7_negative_total_spent_counterexample :
    (update_player c7exS1 "p1" ⟨"p1", "dave", 100, 0⟩).1 = .ok ⟨"p1", "dave", 100, 0⟩ ∧
    alookup (1 : Int) c7exS2.transactions
      = some ⟨1, "p1", "Yacht", 50, "2024-01-01", "purchase"⟩ ∧
    alookup "p1" c7exS2.players = some ⟨"p1", "dave", 100, 0⟩ ∧
    (delete_transaction c7exS2 1).1 = .ok () ∧
    alookup "p1" (delete_transaction c7exS2 1).2.players
      = some ⟨"p1", "dave", 150, -50⟩ ∧
    (-50 : Int) < 0 := by
  refine ⟨by decide, by decide, by decide, by decide, by decide, by decide⟩

/-- C7 as amended: the reversal in `delete_transaction` subtracts the
purchase amount from `total_spent` unconditionally — the call succeeds and
stores the difference even when it is negative; there is no fail-closed
guard and no clamping. -/
theorem c7_reversal_unguarded (s : Store) (k : Int) (t : Transaction) (p : Player)
    (hk : alookup k s.transactions = some t)
    (hpt : t.transaction_type = "purchase")
    (hp : alookup t.player_id s.players = some p) :
    (delete_transaction s k).1 = .ok () ∧
    alookup t.player_id (delete_transaction s k).2.players
      = some { p with total_spent := p.total_spent - t.amount,
                      balance := p.balance + t.amount } ∧
    (p.total_spent < t.amount →
      ({ p with total_spent := p.total_spent - t.amount,
                balance := p.balance + t.amount } : Player).total_spent < 0) := by
  unfold delete_transaction
  rw [hk]
  dsimp only
  refine ⟨rfl, ?_, ?_⟩
  · rw [reverseOld_eq_aset hp, reverseEffect_purchase _ hpt]
    exact alookup_aset_self _ _ _
  · intro hlt
    omega

theorem c7_reversal_unguarded_witness :
    alookup (1 : Int) c7exS2.transactions
      = some ⟨1, "p1", "Yacht", 50, "2024-01-01", "purchase"⟩ ∧
    (⟨1, "p1", "Yacht", 50, "2024-01-01", "purchase"⟩ : Transaction).transaction_type
      = "purchase" ∧
    alookup "p1" c7exS2.players = some ⟨"p1", "dave", 100, 0⟩ ∧
    (delete_transaction c7exS2 1).1 = .ok () ∧
    alookup "p1" (delete_transaction c7exS2 1).2.players
      = some ⟨"p1", "dave", 150, -50⟩ ∧
    (0 : Int) < 50 ∧
    (-50 : Int) < 0 := by
  have h := c7_reversal_unguarded c7exS2 1 ⟨1, "p1", "Yacht", 50, "2024-01-01", "purchase"⟩
    ⟨"p1", "dave", 100, 0⟩ (by decide) rfl (by decide)
  exact ⟨by decide, rfl, by decide, h.1, h.2.1, by decide, h.2.2 (by decide)⟩


/-- Initial empty store and operations for the C8 counterexample: two
entries are added under distinct keys, then `update_market_price` stores,
under key (2, d), an entry whose own `(item_id, date)` is (1, d). -/
def c8exS0 : Store := ⟨[], [], [], 1⟩

def c8exOps : List MpOp :=
  [MpOp.add ⟨1, "Luxury Car", 100, "2024-01-01"⟩,
   MpOp.add ⟨2, "Yacht", 100, "2024-01-01"⟩,
   MpOp.update 2 "2024-01-01" ⟨1, "Luxury Car", 120, "2024-01-01"⟩]

/-- C8 counterexample: after the reachable sequence `c8exOps` the stored
MarketPrice ENTRIES carry the `(item_id, date)` pairs [(1, d), (1, d)] — a
duplicate — because `update_market_price` never checks that the new entry's
pair matches the key it is stored under. -/
theorem c8_entry_pair_counterexample :
    (runMpOps c8exS0 c8exOps).market_prices.map (fun e => (e.2.item_id, e.2.date))
      = [(1, "2024-01-01"), (1, "2024-01-01")] ∧
    ¬ ((runMpOps c8exS0 c8exOps).market_prices.map
        (fun e => (e.2.item_id, e.2.date))).Nodup := by
  refine ⟨by decide, by decide⟩

/-- C8 as amended: the KEYS `(item_id, date)` under which MarketPrice
entries are stored stay pairwise distinct under every sequence of
`add_market_price`, `update_market_price` and `delete_market_price`, and
`add_market_price` fails exactly when the key is already present, inserting
the entry under its own `(item_id, date)` otherwise; but
`update_market_price` replaces the value at an existing key without
validating the new entry's own pair, so the pairs carried by the stored
ENTRIES need not stay distinct. -/
theorem c8_market_key_uniqueness (ops : List MpOp) (s0 : Store)
    (h0 : (s0.market_prices.map Prod.fst).Nodup) :
    ((runMpOps s0 ops).market_prices.map Prod.fst).Nodup ∧
    (∀ s : Store, ∀ mp : MarketPrice,
      (alookup (mp.item_id, mp.date) s.market_prices ≠ none →
        add_market_price s mp = (.error Err.valueError, s)) ∧
      (alookup (mp.item_id, mp.date) s.market_prices = none →
        add_market_price s mp
          = (.ok (), { s with
              market_prices := aset (mp.item_id, mp.date) mp s.market_prices }))) := by
  constructor
  · induction ops generalizing s0 with
    | nil => exact h0
    | cons op l ih =>
      have step : ((applyMpOp s0 op).market_prices.map Prod.fst).Nodup := by
        cases op with
          | add mp =>
            unfold applyMpOp add_market_price
            dsimp only
            cases hdup : alookup (mp.item_id, mp.date) s0.market_prices with
            | some v =>
              rw [if_pos (by simp : ((some v : Option MarketPrice).isSome = true))]
              exact h0
            | none =>
              rw [if_neg (by simp : ¬ ((none : Option MarketPrice).isSome = true))]
              exact nodup_keys_aset_fresh hdup h0
          | update i d mp =>
            unfold applyMpOp update_market_price
            dsimp only
            cases hdup : alookup (i, d) s0.market_prices with
            | none =>
              rw [if_pos (by simp : ((none : Option MarketPrice).isNone = true))]
              exact h0
            | some v =>
              rw [if_neg (by simp : ¬ ((some v : Option MarketPrice).isNone = true))]
              have : ((aset (i, d) mp s0.market_prices).map Prod.fst)
                  = s0.market_prices.map Prod.fst :=
                keys_aset_of_mem mp (mem_keys_of_alookup hdup)
              rw [this]
              exact h0
          | delete i d =>
            unfold applyMpOp delete_market_price
            dsimp only
            cases hdup : alookup (i, d) s0.market_prices with
            | none =>
              rw [if_pos (by simp : ((none : Option MarketPrice).isNone = true))]
              exact h0
            | some v =>
              rw [if_neg (by simp : ¬ ((some v : Option MarketPrice).isNone = true))]
              exact nodup_keys_aerase h0
      exact ih _ step
  · intro s mp
    constructor
    · intro hdup
      unfold add_market_price
      rw [if_pos (Option.ne_none_iff_isSome.mp hdup)]
    · intro hfresh
      unfold add_market_price
      rw [if_neg (by rw [hfresh]; simp :
        ¬ ((alookup (mp.item_id, mp.date) s.market_prices).isSome = true))]

theorem c8_market_key_uniqueness_witness :
    ((runMpOps c8exS0 c8exOps).market_prices.map Prod.fst).Nodup ∧
    alookup ((1 : Int), "2024-01-01")
        (runMpOps c8exS0 c8exOps).market_prices ≠ none ∧
    add_market_price (runMpOps c8exS0 c8exOps) ⟨1, "Luxury Car", 130, "2024-01-01"⟩
      = (.error Err.valueError, runMpOps c8exS0 c8exOps) ∧
    alookup ((3 : Int), "2024-01-02") (runMpOps c8exS0 c8exOps).market_prices = none ∧
    add_market_price (runMpOps c8exS0 c8exOps) ⟨3, "Jet", 500, "2024-01-02"⟩
      = (.ok (), { runMpOps c8exS0 c8exOps with
          market_prices := aset ((3 : Int), "2024-01-02") ⟨3, "Jet", 500, "2024-01-02"⟩
            (runMpOps c8exS0 c8exOps).market_prices }) := by
  have h := c8_market_key_uniqueness c8exOps c8exS0 (by decide)
  have h1 := (h.2 (runMpOps c8exS0 c8exOps) ⟨1, "Luxury Car", 130, "2024-01-01"⟩).1
    (by decide)
  have h2 := (h.2 (runMpOps c8exS0 c8exOps) ⟨3, "Jet", 500, "2024-01-02"⟩).2 (by decide)
  exact ⟨h.1, by decide, h1, by decide, h2⟩


instance : IsTotal MarketPrice dateLe := ⟨fun p q => le_total p.date q.date⟩

instance : IsTrans MarketPrice dateLe := ⟨fun _ _ _ h1 h2 => le_trans h1 h2⟩

/-- On a list sorted ascending by date, `find?` of an upward-closed date
predicate returns an entry of minimal date among the qualifying ones. -/
theorem find_first_sorted {a : String} {l : List MarketPrice}
    (hs : List.Sorted dateLe l) {e0 : MarketPrice}
    (hf : l.find? (fun p => decide (a ≤ p.date)) = some e0) :
    ∀ x ∈ l, a ≤ x.date → e0.date ≤ x.date := by
  induction l with
  | nil => simp at hf
  | cons c l ih =>
    by_cases hc : a ≤ c.date
    · rw [List.find?_cons_of_pos _ (by simpa using hc)] at hf
      injection hf with hf
      subst hf
      intro x hx hax
      rcases List.mem_cons.mp hx with hx | hx
      · subst hx
        exact le_refl _
      · exact List.rel_of_sorted_cons hs x hx
    · rw [List.find?_cons_of_neg _ (by simpa using hc)] at hf
      intro x hx hax
      rcases List.mem_cons.mp hx with hx | hx
      · subst hx
        exact absurd hax hc
      · exact ih hs.of_cons hf x hx hax

/-- On a list sorted descending by date (the reverse of the sorted list),
`find?` of a downward-closed date predicate returns an entry of maximal
date among the qualifying ones. -/
theorem find_last_sorted {b : String} {l : List MarketPrice}
    (hs : List.Pairwise (fun p q => q.date ≤ p.date) l) {e0 : MarketPrice}
    (hf : l.find? (fun p => decide (p.date ≤ b)) = some e0) :
    ∀ x ∈ l, x.date ≤ b → x.date ≤ e0.date := by
  induction l with
  | nil => simp at hf
  | cons c l ih =>
    by_cases hc : c.date ≤ b
    · rw [List.find?_cons_of_pos _ (by simpa using hc)] at hf
      injection hf with hf
      subst hf
      intro x hx hbx
      rcases List.mem_cons.mp hx with hx | hx
      · subst hx
        exact le_refl _
      · exact (List.pairwise_cons.mp hs).1 x hx
    · rw [List.find?_cons_of_neg _ (by simpa using hc)] at hf
      intro x hx hbx
      rcases List.mem_cons.mp hx with hx | hx
      · subst hx
        exact absurd hbx hc
      · exact ih (List.pairwise_cons.mp hs).2 hf x hx hbx

/-- In a list whose entries have pairwise distinct dates, equality of dates
forces equality of entries. -/
theorem eq_of_pairwise_dates {l : List MarketPrice}
    (h : l.Pairwise (fun p q => p.date ≠ q.date)) {x y : MarketPrice}
    (hx : x ∈ l) (hy : y ∈ l) (hd : x.date = y.date) : x = y := by
  induction l with
  | nil => cases hx
  | cons c l ih =>
    rw [List.pairwise_cons] at h
    rcases List.mem_cons.mp hx with hx1 | hx1 <;> rcases List.mem_cons.mp hy with hy1 | hy1
    · rw [hx1, hy1]
    · subst hx1
      exact absurd hd (h.1 y hy1)
    · subst hy1
      exact absurd hd.symm (h.1 x hx1)
    · exact ih h.2 hx1 hy1

/-- C9: `calculate_inflation_rate` works on the item's price entries sorted
by date, picking the earliest entry with date ≥ `start_date` and the latest
entry with date ≤ `end_date`.  If either bound is unmatched the result is
none (this also covers an item with no entries); otherwise the result is
none when the selected start price is 0 and
`(end_price - start_price) / start_price * 100` otherwise.  The distinct
dates hypothesis makes "earliest"/"latest" unambiguous. -/
theorem c9_inflation_rate_spec (s : Store) (item_id : Int) (a b : String)
    (hdist : (itemPrices s item_id).Pairwise (fun p q => p.date ≠ q.date)) :
    ((∀ e ∈ itemPrices s item_id, ¬ a ≤ e.date) →
        calculate_inflation_rate s item_id a b = none) ∧
    ((∀ e ∈ itemPrices s item_id, ¬ e.date ≤ b) →
        calculate_inflation_rate s item_id a b = none) ∧
    (∀ es ee : MarketPrice, es ∈ itemPrices s item_id → a ≤ es.date →
      (∀ e ∈ itemPrices s item_id, a ≤ e.date → es.date ≤ e.date) →
      ee ∈ itemPrices s item_id → ee.date ≤ b →
      (∀ e ∈ itemPrices s item_id, e.date ≤ b → e.date ≤ ee.date) →
      calculate_inflation_rate s item_id a b
        = if es.price = 0 then none
          else some (((ee.price : ℚ) - (es.price : ℚ)) / (es.price : ℚ) * 100)) := by
  have hsorted : List.Sorted dateLe (List.insertionSort dateLe (itemPrices s item_id)) :=
    List.sorted_insertionSort dateLe (itemPrices s item_id)
  refine ⟨?_, ?_, ?_⟩
  · intro hno
    unfold calculate_inflation_rate
    dsimp only
    by_cases hempty : itemPrices s item_id = []
    · rw [if_pos hempty]
    · rw [if_neg hempty]
      have hfind : (List.insertionSort dateLe (itemPrices s item_id)).find?
          (fun p => decide (a ≤ p.date)) = none := by
        rw [List.find?_eq_none]
        intro x hx
        have hxm : x ∈ itemPrices s item_id := by simpa using hx
        simpa using hno x hxm
      rw [hfind]
      cases hf2 : ((List.insertionSort dateLe (itemPrices s item_id)).reverse.find?
          (fun p => decide (p.date ≤ b))) with
      | none => rfl
      | some e2 => rfl
  · intro hno
    unfold calculate_inflation_rate
    dsimp only
    by_cases hempty : itemPrices s item_id = []
    · rw [if_pos hempty]
    · rw [if_neg hempty]
      have hfind : ((List.insertionSort dateLe (itemPrices s item_id)).reverse.find?
          (fun p => decide (p.date ≤ b))) = none := by
        rw [List.find?_eq_none]
        intro x hx
        rw [List.mem_reverse] at hx
        have hxm : x ∈ itemPrices s item_id := by simpa using hx
        simpa using hno x hxm
      rw [hfind]
      cases hf1 : ((List.insertionSort dateLe (itemPrices s item_id)).find?
          (fun p => decide (a ≤ p.date))) with
      | none => rfl
      | some e1 => rfl
  · intro es ee hes ha hmin hee hb2 hmax
    unfold calculate_inflation_rate
    dsimp only
    have hempty : ¬ itemPrices s item_id = [] := by
      intro hh
      rw [hh] at hes
      cases hes
    rw [if_neg hempty]
    have hes' : es ∈ List.insertionSort dateLe (itemPrices s item_id) := by simpa using hes
    cases hf1 : ((List.insertionSort dateLe (itemPrices s item_id)).find?
        (fun p => decide (a ≤ p.date))) with
    | none =>
      exfalso
      have := List.find?_eq_none.mp hf1 es hes'
      simp [ha] at this
    | some e1 =>
      have he1mem : e1 ∈ itemPrices s item_id := by
        simpa using List.mem_of_find?_eq_some hf1
      have he1p : a ≤ e1.date := by simpa using List.find?_some hf1
      have h1 : e1.date ≤ es.date := find_first_sorted hsorted hf1 es hes' ha
      have h2 : es.date ≤ e1.date := hmin e1 he1mem he1p
      have heq1 : e1 = es := eq_of_pairwise_dates hdist he1mem hes (le_antisymm h1 h2)
      have hrev : List.Pairwise (fun p q => q.date ≤ p.date)
          (List.insertionSort dateLe (itemPrices s item_id)).reverse :=
        List.pairwise_reverse.mpr hsorted
      cases hf2 : ((List.insertionSort dateLe (itemPrices s item_id)).reverse.find?
          (fun p => decide (p.date ≤ b))) with
      | none =>
        exfalso
        have hee' : ee ∈ (List.insertionSort dateLe (itemPrices s item_id)).reverse := by
          rw [List.mem_reverse]
          simpa using hee
        have := List.find?_eq_none.mp hf2 ee hee'
        simp [hb2] at this
      | some e2 =>
        have he2mem : e2 ∈ itemPrices s item_id := by
          have hm := List.mem_of_find?_eq_some hf2
          rw [List.mem_reverse] at hm
          simpa using hm
        have he2p : e2.date ≤ b := by simpa using List.find?_some hf2
        have h3 : ee.date ≤ e2.date := by
          refine find_last_sorted hrev hf2 ee ?_ hb2
          rw [List.mem_reverse]
          simpa using hee
        have h4 : e2.date ≤ ee.date := hmax e2 he2mem he2p
        have heq2 : e2 = ee := eq_of_pairwise_dates hdist he2mem hee (le_antisymm h4 h3)
        rw [heq1, heq2]
        rfl

/-- Two-point price history for the C9 witness: 100 on 2024-01-01, 150 on
2024-06-01, all for item 7. -/
def c9exS : Store :=
  ⟨[], [((7, "2024-01-01"), ⟨7, "Shark Card", 100, "2024-01-01"⟩),
        ((7, "2024-06-01"), ⟨7, "Shark Card", 150, "2024-06-01"⟩)], [], 1⟩

theorem c9_inflation_rate_spec_witness :
    itemPrices c9exS 7
      = [⟨7, "Shark Card", 100, "2024-01-01"⟩, ⟨7, "Shark Card", 150, "2024-06-01"⟩] ∧
    ("2024-01-01" : String) < "2024-06-01" ∧
    calculate_inflation_rate c9exS 7 "2024-01-01" "2024-06-01" = some 50 := by
  have hlist : itemPrices c9exS 7
      = [⟨7, "Shark Card", 100, "2024-01-01"⟩, ⟨7, "Shark Card", 150, "2024-06-01"⟩] := by
    decide
  have hd12 : ("2024-01-01" : String) ≤ "2024-06-01" := by
    rw [String.le_iff_toList_le]
    decide
  have h := (c9_inflation_rate_spec c9exS 7 "2024-01-01" "2024-06-01" (by decide)).2.2
    ⟨7, "Shark Card", 100, "2024-01-01"⟩ ⟨7, "Shark Card", 150, "2024-06-01"⟩
    (by decide) (le_refl _)
    (by
      intro e he hae
      rw [hlist] at he
      rcases List.mem_cons.mp he with he | he
      · subst he
        exact le_refl _
      · rcases List.mem_cons.mp he with he | he
        · subst he
          exact hd12
        · cases he)
    (by decide) (le_refl _)
    (by
      intro e he hbe
      rw [hlist] at he
      rcases List.mem_cons.mp he with he | he
      · subst he
        exact hd12
      · rcases List.mem_cons.mp he with he | he
        · subst he
          exact le_refl _
        · cases he)
  refine ⟨hlist, ?_, ?_⟩
  · rw [String.lt_iff_toList_lt]
    decide
  · rw [h]
    norm_num


end GTA
